import Mathlib

/-! Reelboard: the shared movie-pick board of `src/App.jsx`.

A shallow embedding of the board state kept by the `MovieBoard` component and of
the functions that derive a new board from the current one: `buildFreshState`,
the snapshot migration, the four mutations `saveEdit`, `clearSlot`,
`handleVote` and `saveRename`, the two handlers of the `onSnapshot`
subscription, and the derived views `totalVotesOn`, `allPicks` and `topPicks`.

Conventions of the embedding.

* The component state `users` is a `List Member`; every mutation is the function
  from the component state it reads to the value it hands to `setUsers`
  (the unchanged list when the function returns early).
* A JavaScript field that may be missing (`votes`, and each reaction key inside
  `votes`) is an `Option`; `x || []` is `Option.getD x []` (an array, even an
  empty one, is truthy).
* Strings are Lean strings; `String.prototype.trim` is `jsTrim`, which strips the
  ECMAScript white space and line terminator code points.
* Array indices, ids and ratings are natural numbers.
* `Array.prototype.sort` is stable; with the comparator `key(b) - key(a)` it is
  `sortDesc key`, the stable arrangement by descending key.
* A handler of the subscription is a function from the state it may write to the
  new state and the documents handed to `setDoc`, or to the exception it throws.
-/

namespace Reelboard

/-! ## Data model -/

/-- The three reaction keys of `REACTIONS`. -/
inductive ReactionKey where
  | wantToWatch
  | loveIt
  | seenIt
  deriving DecidableEq, Repr, Fintype

/-- The `votes` object of a slot: each reaction key maps to an array of member
ids, and a key may be missing from the object. -/
structure Votes where
  wantToWatch : Option (List Nat)
  loveIt : Option (List Nat)
  seenIt : Option (List Nat)
  deriving DecidableEq, Repr

/-- One movie slot; `votes` is `none` when the object has no (truthy) `votes`
field, as in documents stored before reactions existed. -/
structure Slot where
  id : Nat
  title : String
  description : String
  genre : String
  rating : Nat
  votes : Option Votes
  deriving DecidableEq, Repr

/-- One member of the board. -/
structure Member where
  id : Nat
  name : String
  color : String
  slots : List Slot
  deriving DecidableEq, Repr

/-- The component state `form`. -/
structure Form where
  title : String
  description : String
  genre : String
  rating : Nat
  deriving DecidableEq, Repr

/-- The component state `editTarget` when it is not `null`. -/
structure EditTarget where
  userId : Nat
  slotId : Nat
  deriving DecidableEq, Repr

/-! ## Constants -/

def PALETTE : List String :=
  ["#E63946", "#F4A261", "#2A9D8F", "#E9C46A", "#457B9D",
   "#A8DADC", "#6D6875", "#B5838D", "#52B788", "#F77F00"]

def DEFAULT_NAMES : List String :=
  ["Alex", "Blake", "Casey", "Dana", "Ellis", "Fran", "Grey", "Harper", "Indigo", "Jules"]

/-- The literal `{ wantToWatch: [], loveIt: [], seenIt: [] }`. -/
def emptyVotes : Votes :=
  { wantToWatch := some [], loveIt := some [], seenIt := some [] }

/-! ## JavaScript helpers -/

/-- The code points `String.prototype.trim` strips: ECMAScript `WhiteSpace`
(TAB, VT, FF, ZWNBSP and the space separators) and `LineTerminator`
(LF, CR, LS, PS). -/
def isJsWhiteSpace (c : Char) : Bool :=
  let n := c.toNat
  n == 0x09 || n == 0x0A || n == 0x0B || n == 0x0C || n == 0x0D || n == 0x20 ||
  n == 0xA0 || n == 0x1680 || (0x2000 ≤ n && n ≤ 0x200A) || n == 0x2028 ||
  n == 0x2029 || n == 0x202F || n == 0x205F || n == 0x3000 || n == 0xFEFF

/-- `String.prototype.trim`: drop white space from both ends. -/
def jsTrim (s : String) : String :=
  String.mk ((s.data.dropWhile isJsWhiteSpace).reverse.dropWhile isJsWhiteSpace).reverse

/-- `arr.map((x, i) => f(i, x))` with the index counted from `n`. -/
def mapIdxFrom {α β : Type} (f : Nat → α → β) : Nat → List α → List β
  | _, [] => []
  | n, x :: xs => f n x :: mapIdxFrom f (n + 1) xs

/-- `arr.map((x, i) => f(i, x))`: the JavaScript `map` whose callback also
receives the index. -/
def jsMapIdx {α β : Type} (f : Nat → α → β) (xs : List α) : List β :=
  mapIdxFrom f 0 xs

/-- `votes[key]`. -/
def Votes.get (v : Votes) : ReactionKey → Option (List Nat)
  | .wantToWatch => v.wantToWatch
  | .loveIt => v.loveIt
  | .seenIt => v.seenIt

/-- `{ ...votes, [key]: ids }`. -/
def Votes.set (v : Votes) (key : ReactionKey) (ids : List Nat) : Votes :=
  match key with
  | .wantToWatch => { v with wantToWatch := some ids }
  | .loveIt => { v with loveIt := some ids }
  | .seenIt => { v with seenIt := some ids }

/-- `{ ...s.votes }`: spreading a missing `votes` gives the object without keys. -/
def spreadVotes (votes : Option Votes) : Votes :=
  votes.getD { wantToWatch := none, loveIt := none, seenIt := none }

/-- `s.votes?.[key]`: missing when `votes` is missing or lacks the key. -/
def votesEntry (s : Slot) (key : ReactionKey) : Option (List Nat) :=
  s.votes.bind fun v => v.get key

/-- `s.votes?.[key] || []`, the voter list `VoteBar` and `handleVote` read. -/
def voters (s : Slot) (key : ReactionKey) : List Nat :=
  (votesEntry s key).getD []

/-! ## Seeding and migration -/

/-- `buildFreshState()`: one member per default name, each with ten empty slots.
`PALETTE[i]` is defined for every index of `DEFAULT_NAMES`. -/
def buildFreshState : List Member :=
  jsMapIdx (fun i name =>
    { id := i, name := name, color := PALETTE.getD i "",
      slots := jsMapIdx (fun j _ =>
        { id := j, title := "", description := "", genre := "", rating := 0,
          votes := some emptyVotes }) (List.replicate 10 ()) })
    DEFAULT_NAMES

/-- The migration of the snapshot handler, applied to `data.users`:
`{ ...s, votes: s.votes || { wantToWatch: [], loveIt: [], seenIt: [] } }`
on every slot of every member. -/
def migrate (users : List Member) : List Member :=
  users.map fun u =>
    { u with slots := u.slots.map fun s =>
        { s with votes := some (s.votes.getD emptyVotes) } }

/-! ## Mutations -/

/-- `saveEdit()`, as a function of the state it reads (`users`, `editTarget`,
`form`). -/
def saveEdit (users : List Member) (editTarget : EditTarget) (form : Form) : List Member :=
  if jsTrim form.title = "" then users
  else
    users.map fun u =>
      if u.id ≠ editTarget.userId then u
      else
        { u with slots := jsMapIdx (fun i s =>
            if i ≠ editTarget.slotId then s
            else
              { s with title := jsTrim form.title, description := jsTrim form.description,
                       genre := form.genre, rating := form.rating }) u.slots }

/-- `clearSlot(userId, slotId)`. The literal it writes takes its `id` from the
index `i`. -/
def clearSlot (users : List Member) (userId slotId : Nat) : List Member :=
  users.map fun u =>
    if u.id ≠ userId then u
    else
      { u with slots := jsMapIdx (fun i s =>
          if i ≠ slotId then s
          else
            { id := i, title := "", description := "", genre := "", rating := 0,
              votes := some emptyVotes }) u.slots }

/-- The slot `handleVote` writes in place of the targeted slot `s`. -/
def toggleSlot (s : Slot) (activeUserId : Nat) (reactionKey : ReactionKey) : Slot :=
  let current := voters s reactionKey
  let already := current.contains activeUserId
  { s with votes := some ((spreadVotes s.votes).set reactionKey
      (if already then current.filter (fun id => id != activeUserId)
       else current ++ [activeUserId])) }

/-- `handleVote(ownerUserId, slotIdx, reactionKey)`, as a function of the state
it reads (`users`, `activeUserId`). -/
def handleVote (users : List Member) (activeUserId ownerUserId slotIdx : Nat)
    (reactionKey : ReactionKey) : List Member :=
  if activeUserId = ownerUserId then users
  else
    users.map fun u =>
      if u.id ≠ ownerUserId then u
      else
        { u with slots := jsMapIdx (fun i s =>
            if i ≠ slotIdx then s else toggleSlot s activeUserId reactionKey) u.slots }

/-- `saveRename()`, as a function of the state it reads (`users`,
`renamingUser`, `renameVal`). -/
def saveRename (users : List Member) (renamingUser : Nat) (renameVal : String) : List Member :=
  if jsTrim renameVal = "" then users
  else
    users.map fun u =>
      if u.id ≠ renamingUser then u else { u with name := jsTrim renameVal }

/-! ## Reading the board -/

/-- The slot `users[m].slots[j]`, when both indices are in range. -/
def slotAt (users : List Member) (m j : Nat) : Option Slot :=
  users[m]?.bind fun u => u.slots[j]?

/-- The slot `users.find(u => u.id === userId).slots[slotId]` that `openEdit`
reads, when there is such a member and such a slot. -/
def findSlot (users : List Member) (userId slotId : Nat) : Option Slot :=
  (users.find? fun u => u.id == userId).bind fun u => u.slots[slotId]?

/-! ## Sequences of mutations -/

/-- One call of a mutation together with the state and arguments it reads. -/
inductive Mutation where
  | edit (editTarget : EditTarget) (form : Form)
  | clear (userId slotId : Nat)
  | vote (activeUserId ownerUserId slotIdx : Nat) (reactionKey : ReactionKey)
  | rename (renamingUser : Nat) (renameVal : String)
  deriving DecidableEq, Repr

/-- The board a mutation hands to `setUsers`. -/
def applyMutation (users : List Member) : Mutation → List Member
  | .edit editTarget form => saveEdit users editTarget form
  | .clear userId slotId => clearSlot users userId slotId
  | .vote activeUserId ownerUserId slotIdx reactionKey =>
      handleVote users activeUserId ownerUserId slotIdx reactionKey
  | .rename renamingUser renameVal => saveRename users renamingUser renameVal

/-- The boards obtained from the seeded board by a sequence of mutations. -/
inductive Reachable : List Member → Prop where
  | fresh : Reachable buildFreshState
  | step {users : List Member} (op : Mutation) :
      Reachable users → Reachable (applyMutation users op)

/-! ## Board predicates -/

/-- Ten members, each with ten slots. -/
def Is10x10 (users : List Member) : Prop :=
  users.length = 10 ∧ ∀ u ∈ users, u.slots.length = 10

/-- A slot with an empty title has nothing else filled in and no voters. -/
def SlotUnoccupiedOk (s : Slot) : Prop :=
  s.title = "" →
    s.genre = "" ∧ s.description = "" ∧ s.rating = 0 ∧ ∀ key, voters s key = []

/-- Every slot of the board satisfies `SlotUnoccupiedOk`. -/
def UnoccupiedOk (users : List Member) : Prop :=
  ∀ u ∈ users, ∀ s ∈ u.slots, SlotUnoccupiedOk s

/-- No voter list of the board repeats a member id. -/
def VotersNodup (users : List Member) : Prop :=
  ∀ u ∈ users, ∀ s ∈ u.slots, ∀ key, (voters s key).Nodup

/-- Every slot carries its index as `id`, as in the boards `buildFreshState`
builds. -/
def SlotIdsAreIndices (users : List Member) : Prop :=
  ∀ u ∈ users, (u.slots.map fun s => s.id) = List.range u.slots.length

instance (s : Slot) : Decidable (SlotUnoccupiedOk s) := by
  unfold SlotUnoccupiedOk
  infer_instance

instance (users : List Member) : Decidable (UnoccupiedOk users) := by
  unfold UnoccupiedOk
  infer_instance

instance (users : List Member) : Decidable (VotersNodup users) := by
  unfold VotersNodup
  infer_instance

/-! ## The snapshot subscription -/

/-- An element of `data.users` as delivered: `slots` is `none` when the member
has no `slots` array, and an entry of `slots` is `none` when it is `null` or
`undefined`. -/
structure DocMember where
  id : Nat
  name : String
  color : String
  slots : Option (List (Option Slot))
  deriving DecidableEq, Repr

/-- The data of a present snapshot, `snap.data()`: `users` is `none` when the
document has no `users` array, and an entry of `users` is `none` when it is
`null` or `undefined`. -/
structure BoardDoc where
  users : Option (List (Option DocMember))
  deriving DecidableEq, Repr

/-- The entries of an array when none of them is `null` or `undefined`. -/
def presentAll {α : Type} : List (Option α) → Option (List α)
  | [] => some []
  | none :: _ => none
  | some a :: rest => (presentAll rest).map fun r => a :: r

/-- The member as the callback `u => ({ ...u, slots: u.slots.map(s => ...) })`
reads it: `none` when `u.slots.map` or `s.votes` is a property access on
`undefined` or `null`, which throws. -/
def DocMember.read (u : DocMember) : Option Member :=
  (u.slots.bind presentAll).map fun slots =>
    { id := u.id, name := u.name, color := u.color, slots := slots }

/-- The members of the document as `data.users.map(...)` reads them: `none` when
`data.users.map`, `u.slots` (on a `null` member), `u.slots.map` or `s.votes` is a
property access on `undefined` or `null`, which throws. -/
def BoardDoc.read (data : BoardDoc) : Option (List Member) :=
  data.users.bind fun us =>
    (presentAll us).bind fun ms => presentAll (ms.map DocMember.read)

/-- The delivered form of a member all of whose parts are present. -/
def Member.toDoc (u : Member) : DocMember :=
  { id := u.id, name := u.name, color := u.color, slots := some (u.slots.map some) }

/-- The document `{ users }` for a sequence of members all of whose parts are
present. -/
def BoardDoc.ofUsers (users : List Member) : BoardDoc :=
  { users := some (users.map fun u => some u.toDoc) }

/-- The part of the component state the subscription handlers write: the mirror
`users` (`null` before the first delivery) and `loading`. -/
structure SyncState where
  users : Option (List Member)
  loading : Bool
  deriving DecidableEq, Repr

/-- The state of `useState(null)` and `useState(true)` before any delivery. -/
def initialSyncState : SyncState :=
  { users := none, loading := true }

/-- An exception thrown by the handler. -/
inductive JsError where
  | typeError
  deriving DecidableEq, Repr

/-- The `onSnapshot` success handler: from the state and the delivered snapshot
(`none` when `snap.exists()` is false) to the new state together with the
documents handed to `setDoc`, in order. The migration throws a `TypeError`,
before any state is set, when `data.users` is missing, when a member is `null`
or has no `slots`, or when a slot is `null`. -/
def onSnapshotHandler (_st : SyncState) (snap : Option BoardDoc) :
    Except JsError (SyncState × List (List Member)) :=
  match snap with
  | some data =>
    match data.read with
    | none => .error .typeError
    | some users => .ok ({ users := some (migrate users), loading := false }, [])
  | none =>
    let fresh := buildFreshState
    .ok ({ users := some fresh, loading := false }, [fresh])

/-- The `onSnapshot` error handler: `setUsers(buildFreshState()); setLoading(false)`. -/
def onSnapshotError (_st : SyncState) : SyncState :=
  { users := some buildFreshState, loading := false }

/-! ## Derived views -/

/-- An entry of `allPicks` and `topPicks`:
`{ ...s, userName: u.name, userColor: u.color, userId: u.id, slotIdx: i }`. -/
structure Pick extends Slot where
  userName : String
  userColor : String
  userId : Nat
  slotIdx : Nat
  deriving DecidableEq, Repr

/-- `Object.values(votes)`: the arrays of the keys the object has. -/
def Votes.values (v : Votes) : List (List Nat) :=
  [v.wantToWatch, v.loveIt, v.seenIt].filterMap fun a => a

/-- `totalVotesOn(s)`:
`Object.values(s.votes || {}).reduce((n, a) => n + a.length, 0)`. -/
def totalVotesOn (s : Slot) : Nat :=
  ((s.votes.map Votes.values).getD []).foldl (fun n a => n + a.length) 0

/-- `users.flatMap(u => u.slots.map((s, i) => ({ ...s, userName: u.name,
userColor: u.color, userId: u.id, slotIdx: i })))`, the flatten order. -/
def picksOf (users : List Member) : List Pick :=
  users.flatMap fun u =>
    jsMapIdx (fun i s =>
      { toSlot := s, userName := u.name, userColor := u.color, userId := u.id, slotIdx := i })
      u.slots

/-- Insert `a` in front of the first element whose key is not larger. -/
def insertDesc {α : Type} (key : α → Nat) (a : α) : List α → List α
  | [] => [a]
  | b :: l => if key b ≤ key a then a :: b :: l else b :: insertDesc key a l

/-- `arr.sort((a, b) => key(b) - key(a))`: `Array.prototype.sort` is stable, so
the result is the stable arrangement by descending key, computed here by
insertion from the right. -/
def sortDesc {α : Type} (key : α → Nat) : List α → List α
  | [] => []
  | a :: l => insertDesc key a (sortDesc key l)

/-- The value of a digit character in the given radix, if it is one. -/
def digitValue (radix : Nat) (c : Char) : Option Nat :=
  let n := c.toNat
  let v :=
    if 48 ≤ n ∧ n ≤ 57 then some (n - 48)
    else if 97 ≤ n ∧ n ≤ 122 then some (n - 97 + 10)
    else if 65 ≤ n ∧ n ≤ 90 then some (n - 65 + 10)
    else none
  v.bind fun d => if d < radix then some d else none

/-- The values of the longest prefix of digits in the given radix. -/
def takeDigits (radix : Nat) : List Char → List Nat
  | [] => []
  | c :: cs =>
    match digitValue radix c with
    | some d => d :: takeDigits radix cs
    | none => []

/-- `parseInt(s)` without a radix argument: skip leading white space, read a
sign, read `0x`/`0X` as the hexadecimal prefix, then the longest run of digits;
`none` is `NaN`. (The result is the exact integer; JavaScript rounds beyond
2^53.) -/
def jsParseInt (s : String) : Option Int :=
  let cs := s.data.dropWhile isJsWhiteSpace
  let signed : Bool × List Char :=
    match cs with
    | '-' :: r => (true, r)
    | '+' :: r => (false, r)
    | _ => (false, cs)
  let based : Nat × List Char :=
    match signed.2 with
    | '0' :: 'x' :: r => (16, r)
    | '0' :: 'X' :: r => (16, r)
    | _ => (10, signed.2)
  let ds := takeDigits based.1 based.2
  if ds = [] then none
  else
    let n : Int := (ds.foldl (fun n d => n * based.1 + d) 0 : Nat)
    some (if signed.1 then -n else n)

/-- The value the member `<select>` stores in `filterUser`: `""` for the option
"All members", else the `value={u.id}` of the chosen option, as a string. -/
def memberFilterValue : Option Nat → String
  | none => ""
  | some n => toString n

/-- The list `allPicks` the component computes from `users` and the state
`filterGenre`, `filterUser` (both `""` when no filter is chosen) and `sortBy`. -/
def allPicks (users : List Member) (filterGenre filterUser sortBy : String) : List Pick :=
  let picks :=
    (((picksOf users).filter fun p => p.title != "").filter fun p =>
        filterGenre == "" || p.genre == filterGenre).filter fun p =>
      filterUser == "" || jsParseInt filterUser == some (p.userId : Int)
  let picks := if sortBy = "votes" then sortDesc (fun p => totalVotesOn p.toSlot) picks else picks
  if sortBy = "rating" then sortDesc (fun p => p.rating) picks else picks

/-- The list `topPicks`: occupied entries with a reaction, sorted by descending
`totalVotesOn`, `slice(0, 3)`. -/
def topPicks (users : List Member) : List Pick :=
  (sortDesc (fun p => totalVotesOn p.toSlot)
    ((picksOf users).filter fun p => p.title != "" && decide (totalVotesOn p.toSlot > 0))).take 3

/-- `totalPicks`: `users.flatMap(u => u.slots).filter(s => s.title).length`. -/
def totalPicks (users : List Member) : Nat :=
  ((users.flatMap fun u => u.slots).filter fun s => s.title != "").length

/-- The "Reactions" counter of the header:
`users.flatMap(u => u.slots).reduce((n, s) => n + totalVotesOn(s), 0)`. -/
def totalReactions (users : List Member) : Nat :=
  (users.flatMap fun u => u.slots).foldl (fun n s => n + totalVotesOn s) 0

/-! ## Lemmas on the JavaScript helpers -/

theorem mapIdxFrom_length {α β : Type} (f : Nat → α → β) (n : Nat) (xs : List α) :
    (mapIdxFrom f n xs).length = xs.length := by
  induction xs generalizing n with
  | nil => rfl
  | cons x xs ih => simp [mapIdxFrom, ih]

theorem jsMapIdx_length {α β : Type} (f : Nat → α → β) (xs : List α) :
    (jsMapIdx f xs).length = xs.length :=
  mapIdxFrom_length f 0 xs

theorem mapIdxFrom_getElem? {α β : Type} (f : Nat → α → β) (n i : Nat) (xs : List α) :
    (mapIdxFrom f n xs)[i]? = (xs[i]?).map (f (n + i)) := by
  induction xs generalizing n i with
  | nil => simp [mapIdxFrom]
  | cons x xs ih =>
    cases i with
    | zero => simp [mapIdxFrom]
    | succ i =>
      have h : n + 1 + i = n + (i + 1) := by omega
      simp only [mapIdxFrom, List.getElem?_cons_succ, ih, h]

theorem jsMapIdx_getElem? {α β : Type} (f : Nat → α → β) (i : Nat) (xs : List α) :
    (jsMapIdx f xs)[i]? = (xs[i]?).map (f i) := by
  simp [jsMapIdx, mapIdxFrom_getElem?]

/-- Replacing the element at index `j` through the indexed `map` is `List.set`
at `j`, and nothing at all when `j` is out of range. -/
theorem jsMapIdx_ite {α : Type} (g : Nat → α → α) (j : Nat) (xs : List α) :
    jsMapIdx (fun i s => if i ≠ j then s else g i s) xs =
      match xs[j]? with
      | some s => xs.set j (g j s)
      | none => xs := by
  apply List.ext_getElem?
  intro i
  rw [jsMapIdx_getElem?]
  cases hj : xs[j]? with
  | none =>
    simp only
    cases hi : xs[i]? with
    | none => rfl
    | some a =>
      have hne : i ≠ j := by
        rintro rfl
        rw [hj] at hi
        cases hi
      simp [hne]
  | some s =>
    simp only
    by_cases hij : i = j
    · subst hij
      have hlt : i < xs.length := by
        by_contra hge
        rw [List.getElem?_eq_none (by omega)] at hj
        cases hj
      simp [hj, List.getElem?_set_self, hlt]
    · have hji : j ≠ i := fun h => hij h.symm
      rw [List.getElem?_set_ne hji]
      cases xs[i]? <;> simp [hij]

/-! ## Lemmas on replacing one member -/

/-- With distinct ids, rewriting the members whose id is `u.id` rewrites exactly
the position where `u` sits. -/
theorem map_owner_eq_set (g : Member → Member) (users : List Member) (m : Nat) (u : Member)
    (hnd : (users.map fun x => x.id).Nodup) (hm : users[m]? = some u) :
    users.map (fun x => if x.id ≠ u.id then x else g x) = users.set m (g u) := by
  induction users generalizing m with
  | nil => simp at hm
  | cons x xs ih =>
    rw [List.map_cons, List.nodup_cons] at hnd
    cases m with
    | zero =>
      simp only [List.getElem?_cons_zero, Option.some.injEq] at hm
      subst hm
      have hrest : xs.map (fun y => if y.id ≠ x.id then y else g y) = xs := by
        conv_rhs => rw [← List.map_id xs]
        apply List.map_congr_left
        intro y hy
        have hne : y.id ≠ x.id := by
          intro h
          exact hnd.1 (h ▸ List.mem_map_of_mem (fun x => x.id) hy)
        simp [hne]
      rw [List.map_cons, hrest]
      simp
    | succ m =>
      simp only [List.getElem?_cons_succ] at hm
      have hne : x.id ≠ u.id := by
        intro h
        apply hnd.1
        rw [h]
        exact List.mem_map_of_mem (fun x => x.id) (List.getElem?_mem hm)
      rw [List.map_cons, ih m hnd.2 hm]
      simp [hne]

/-- When no member has the id, the rewriting `map` returns the board itself. -/
theorem map_owner_eq_self (g : Member → Member) (users : List Member) (uid : Nat)
    (hno : ∀ x ∈ users, x.id ≠ uid) :
    users.map (fun x => if x.id ≠ uid then x else g x) = users := by
  conv_rhs => rw [← List.map_id users]
  apply List.map_congr_left
  intro y hy
  simp [hno y hy]

/-- A `map` that keeps every member's number of slots keeps the board's shape. -/
theorem map_shape (F : Member → Member) (users : List Member)
    (hF : ∀ u, (F u).slots.length = u.slots.length) :
    (users.map F).length = users.length ∧
      (users.map F).map (fun u => u.slots.length) = users.map (fun u => u.slots.length) := by
  refine ⟨List.length_map _ _, ?_⟩
  rw [List.map_map]
  apply List.map_congr_left
  intro u _
  exact hF u

theorem applyMutation_shape (users : List Member) (op : Mutation) :
    (applyMutation users op).length = users.length ∧
      (applyMutation users op).map (fun u => u.slots.length) =
        users.map (fun u => u.slots.length) := by
  cases op with
  | edit editTarget form =>
    simp only [applyMutation, saveEdit]
    split
    · exact ⟨rfl, rfl⟩
    · apply map_shape
      intro u
      split <;> simp [jsMapIdx_length]
  | clear userId slotId =>
    simp only [applyMutation, clearSlot]
    apply map_shape
    intro u
    split <;> simp [jsMapIdx_length]
  | vote activeUserId ownerUserId slotIdx reactionKey =>
    simp only [applyMutation, handleVote]
    split
    · exact ⟨rfl, rfl⟩
    · apply map_shape
      intro u
      split <;> simp [jsMapIdx_length]
  | rename renamingUser renameVal =>
    simp only [applyMutation, saveRename]
    split
    · exact ⟨rfl, rfl⟩
    · apply map_shape
      intro u
      split <;> simp

theorem is10x10_iff (users : List Member) :
    Is10x10 users ↔ users.map (fun u => u.slots.length) = List.replicate 10 10 := by
  unfold Is10x10
  constructor
  · rintro ⟨hlen, hall⟩
    rw [List.eq_replicate_iff]
    refine ⟨by simp [hlen], ?_⟩
    intro n hn
    obtain ⟨u, hu, rfl⟩ := List.mem_map.1 hn
    exact hall u hu
  · intro h
    rw [List.eq_replicate_iff] at h
    refine ⟨by simpa using h.1, ?_⟩
    intro u hu
    exact h.2 _ (List.mem_map_of_mem (fun u => u.slots.length) hu)

theorem buildFreshState_is10x10 : Is10x10 buildFreshState := by
  rw [is10x10_iff]
  decide

/-! ## C1: the 10 x 10 shape -/

/-- C1. Every mutation (`saveEdit`, `clearSlot`, `handleVote`, `saveRename`, with
any arguments) keeps the number of members and, position by position, each
member's number of slots; hence every board reachable from `buildFreshState` by
mutations has exactly 10 members with exactly 10 slots each. -/
theorem C1_cardinality_preserved :
    (∀ (users : List Member) (op : Mutation),
        (applyMutation users op).length = users.length ∧
        (applyMutation users op).map (fun u => u.slots.length) =
          users.map (fun u => u.slots.length)) ∧
    (∀ users : List Member, Reachable users →
        users.length = 10 ∧ ∀ u ∈ users, u.slots.length = 10) := by
  refine ⟨applyMutation_shape, ?_⟩
  intro users hreach
  induction hreach with
  | fresh => exact buildFreshState_is10x10
  | @step b op _ ih =>
    have h := applyMutation_shape b op
    exact (is10x10_iff _).2 (h.2.trans ((is10x10_iff _).1 ih))

/-! ## Lemmas on `toggleSlot` -/

theorem Votes.get_set_self (v : Votes) (key : ReactionKey) (ids : List Nat) :
    (v.set key ids).get key = some ids := by
  cases key <;> rfl

theorem Votes.get_set_other (v : Votes) (key other : ReactionKey) (ids : List Nat)
    (h : other ≠ key) : (v.set key ids).get other = v.get other := by
  cases key <;> cases other <;> first | rfl | exact absurd rfl h

theorem spreadVotes_get (votes : Option Votes) (key : ReactionKey) :
    (spreadVotes votes).get key = votes.bind fun v => v.get key := by
  cases votes with
  | none => cases key <;> rfl
  | some v => rfl

theorem voters_toggleSlot_self (s : Slot) (activeUserId : Nat) (key : ReactionKey) :
    voters (toggleSlot s activeUserId key) key =
      if (voters s key).contains activeUserId
      then (voters s key).filter (fun id => id != activeUserId)
      else voters s key ++ [activeUserId] := by
  simp [voters, votesEntry, toggleSlot, Votes.get_set_self]

theorem votesEntry_toggleSlot_other (s : Slot) (activeUserId : Nat) (key other : ReactionKey)
    (h : other ≠ key) :
    votesEntry (toggleSlot s activeUserId key) other = votesEntry s other := by
  simp [votesEntry, toggleSlot, Votes.get_set_other _ _ _ _ h, spreadVotes_get]

theorem mem_voters_toggleSlot (s : Slot) (activeUserId : Nat) (key : ReactionKey) (v : Nat) :
    v ∈ voters (toggleSlot s activeUserId key) key ↔
      if v = activeUserId then v ∉ voters s key else v ∈ voters s key := by
  rw [voters_toggleSlot_self]
  by_cases hin : activeUserId ∈ voters s key
  · by_cases hv : v = activeUserId
    · subst hv
      simp [hin]
    · simp [hin, hv]
  · by_cases hv : v = activeUserId
    · subst hv
      simp [hin]
    · simp [hin, hv]

/-- With distinct ids and an existing target, `handleVote` rewrites one slot. -/
theorem handleVote_eq_set (users : List Member) (activeUserId ownerUserId slotIdx : Nat)
    (reactionKey : ReactionKey) (m : Nat) (u : Member) (s : Slot)
    (hnd : (users.map fun x => x.id).Nodup) (hne : activeUserId ≠ ownerUserId)
    (hm : users[m]? = some u) (hid : u.id = ownerUserId) (hs : u.slots[slotIdx]? = some s) :
    handleVote users activeUserId ownerUserId slotIdx reactionKey =
      users.set m { u with slots := u.slots.set slotIdx (toggleSlot s activeUserId reactionKey) } := by
  subst hid
  simp only [handleVote, if_neg hne]
  rw [map_owner_eq_set _ users m u hnd hm]
  congr 2
  have h := jsMapIdx_ite (fun _ s => toggleSlot s activeUserId reactionKey) slotIdx u.slots
  rw [hs] at h
  exact h

/-- Without a target (no member with the id, or the index out of range for it),
`handleVote` returns the board itself. -/
theorem handleVote_no_target (users : List Member) (activeUserId ownerUserId slotIdx : Nat)
    (reactionKey : ReactionKey)
    (hno : ∀ u ∈ users, u.id = ownerUserId → u.slots[slotIdx]? = none) :
    handleVote users activeUserId ownerUserId slotIdx reactionKey = users := by
  unfold handleVote
  split
  · rfl
  · conv_rhs => rw [← List.map_id users]
    apply List.map_congr_left
    intro u hu
    by_cases hid : u.id = ownerUserId
    · have h := jsMapIdx_ite (fun _ s => toggleSlot s activeUserId reactionKey) slotIdx u.slots
      rw [hno u hu hid] at h
      simp only at h
      show (if u.id ≠ ownerUserId then u else _) = id u
      rw [if_neg (fun hn => hn hid), h]
      rfl
    · simp [hid]

/-! ## C2: the frame of `handleVote` -/

/-- C2. On a board with distinct member ids and with actor different from owner,
`handleVote` (toggleVote) changes exactly one membership: when the owner id and
slot index designate a slot, the new board is the old one with that one slot
replaced, the new slot has the old id, title, description, genre and rating, the
actor is among its voters for the kind exactly when it was not before, every other
id is among them exactly when it was before, and the entries of the other two
kinds are the old ones; when they designate no slot, the board is returned as it
is. -/
theorem C2_handleVote_frame (users : List Member) (activeUserId ownerUserId slotIdx : Nat)
    (reactionKey : ReactionKey)
    (hnd : (users.map fun x => x.id).Nodup) (hne : activeUserId ≠ ownerUserId) :
    (∀ (m : Nat) (u : Member) (s : Slot),
        users[m]? = some u → u.id = ownerUserId → u.slots[slotIdx]? = some s →
        handleVote users activeUserId ownerUserId slotIdx reactionKey =
            users.set m
              { u with slots := u.slots.set slotIdx (toggleSlot s activeUserId reactionKey) } ∧
          (toggleSlot s activeUserId reactionKey).id = s.id ∧
          (toggleSlot s activeUserId reactionKey).title = s.title ∧
          (toggleSlot s activeUserId reactionKey).description = s.description ∧
          (toggleSlot s activeUserId reactionKey).genre = s.genre ∧
          (toggleSlot s activeUserId reactionKey).rating = s.rating ∧
          (activeUserId ∈ voters (toggleSlot s activeUserId reactionKey) reactionKey ↔
            activeUserId ∉ voters s reactionKey) ∧
          (∀ v, v ≠ activeUserId →
            (v ∈ voters (toggleSlot s activeUserId reactionKey) reactionKey ↔
              v ∈ voters s reactionKey)) ∧
          (∀ other, other ≠ reactionKey →
            votesEntry (toggleSlot s activeUserId reactionKey) other = votesEntry s other)) ∧
    ((∀ u ∈ users, u.id = ownerUserId → u.slots[slotIdx]? = none) →
        handleVote users activeUserId ownerUserId slotIdx reactionKey = users) := by
  refine ⟨?_, handleVote_no_target users activeUserId ownerUserId slotIdx reactionKey⟩
  intro m u s hm hid hs
  refine ⟨handleVote_eq_set users activeUserId ownerUserId slotIdx reactionKey m u s
    hnd hne hm hid hs, rfl, rfl, rfl, rfl, rfl, ?_, ?_, ?_⟩
  · simpa using mem_voters_toggleSlot s activeUserId reactionKey activeUserId
  · intro v hv
    simpa [hv] using mem_voters_toggleSlot s activeUserId reactionKey v
  · intro other hother
    exact votesEntry_toggleSlot_other s activeUserId reactionKey other hother

/-- The witness of C2 on the seeded board: actor 5 votes `loveIt` on slot 3 of
member 2. -/
theorem C2_handleVote_frame_witness :
    (buildFreshState.map fun x => x.id).Nodup ∧ (5 : Nat) ≠ 2 ∧
      ∀ (m : Nat) (u : Member) (s : Slot),
        buildFreshState[m]? = some u → u.id = 2 → u.slots[3]? = some s →
        handleVote buildFreshState 5 2 3 .loveIt =
          buildFreshState.set m { u with slots := u.slots.set 3 (toggleSlot s 5 .loveIt) } :=
  ⟨by decide, by decide, fun m u s hm hid hs =>
    ((C2_handleVote_frame buildFreshState 5 2 3 .loveIt (by decide) (by decide)).1
      m u s hm hid hs).1⟩

/-! ## C3, C4: toggling twice, and voting on one's own slot -/

/-- What `handleVote` does to the slot at position `(m, j)`. -/
theorem slotAt_handleVote (users : List Member) (activeUserId ownerUserId slotIdx : Nat)
    (reactionKey : ReactionKey) (m j : Nat) :
    slotAt (handleVote users activeUserId ownerUserId slotIdx reactionKey) m j =
      users[m]?.bind fun u => (u.slots[j]?).map fun s =>
        if activeUserId ≠ ownerUserId ∧ u.id = ownerUserId ∧ j = slotIdx
        then toggleSlot s activeUserId reactionKey else s := by
  unfold slotAt handleVote
  by_cases hne : activeUserId = ownerUserId
  · simp only [if_pos hne]
    cases users[m]? with
    | none => rfl
    | some u => cases h : u.slots[j]? <;> simp [h, hne]
  · simp only [if_neg hne, List.getElem?_map]
    cases users[m]? with
    | none => rfl
    | some u =>
      simp only [Option.map_some', Option.some_bind]
      by_cases hid : u.id = ownerUserId
      · simp only [ne_eq, hid, not_true_eq_false, if_false, jsMapIdx_getElem?]
        cases u.slots[j]? with
        | none => rfl
        | some s =>
          by_cases hj : j = slotIdx
          · simp [hj, hne]
          · simp [hj]
      · simp only [ne_eq, hid, not_false_eq_true, if_true]
        cases u.slots[j]? with
        | none => rfl
        | some s => simp [hid]

theorem toFinset_voters_toggle_twice (s : Slot) (activeUserId : Nat) (reactionKey key : ReactionKey) :
    (voters (toggleSlot (toggleSlot s activeUserId reactionKey) activeUserId reactionKey)
        key).toFinset = (voters s key).toFinset := by
  by_cases hk : key = reactionKey
  · subst hk
    ext v
    simp only [List.mem_toFinset, mem_voters_toggleSlot]
    by_cases hv : v = activeUserId <;> simp [hv]
  · simp only [voters, votesEntry_toggleSlot_other _ _ _ _ hk]

/-- C3. With actor different from owner, calling `handleVote` twice in succession
with the same arguments leaves at every slot of the board, for every reaction
kind, the same set of voter ids as before the two calls; in particular the
targeted voter set is back to its original state. -/
theorem C3_handleVote_twice (users : List Member) (activeUserId ownerUserId slotIdx : Nat)
    (reactionKey : ReactionKey) (hne : activeUserId ≠ ownerUserId) :
    ∀ (m j : Nat) (s : Slot), slotAt users m j = some s →
      ∃ s2 : Slot,
        slotAt (handleVote (handleVote users activeUserId ownerUserId slotIdx reactionKey)
          activeUserId ownerUserId slotIdx reactionKey) m j = some s2 ∧
        ∀ key, (voters s2 key).toFinset = (voters s key).toFinset := by
  intro m j s hs
  rw [slotAt_handleVote]
  unfold slotAt at hs
  cases hm : users[m]? with
  | none => simp [hm] at hs
  | some u =>
    simp only [hm, Option.some_bind] at hs
    have h1 := slotAt_handleVote users activeUserId ownerUserId slotIdx reactionKey m j
    simp only [slotAt, hm, Option.some_bind, hs, Option.map_some'] at h1
    cases hm1 : (handleVote users activeUserId ownerUserId slotIdx reactionKey)[m]? with
    | none => simp [hm1] at h1
    | some u1 =>
      simp only [hm1, Option.some_bind] at h1
      have hid : u1.id = u.id := by
        unfold handleVote at hm1
        rw [if_neg hne, List.getElem?_map, hm] at hm1
        simp only [Option.map_some', Option.some.injEq] at hm1
        rw [← hm1]
        split <;> rfl
      simp only [Option.some_bind, h1, Option.map_some', hid]
      by_cases htarget : activeUserId ≠ ownerUserId ∧ u.id = ownerUserId ∧ j = slotIdx
      · refine ⟨_, rfl, ?_⟩
        intro key
        simp only [if_pos htarget]
        exact toFinset_voters_toggle_twice s activeUserId reactionKey key
      · refine ⟨_, rfl, ?_⟩
        intro key
        simp only [if_neg htarget]

/-- The witness of C3: owner 2, slot 3, kind `loveIt`, actor 5, on the seeded
board. -/
theorem C3_handleVote_twice_witness :
    (5 : Nat) ≠ 2 ∧
      ∀ (m j : Nat) (s : Slot), slotAt buildFreshState m j = some s →
        ∃ s2 : Slot,
          slotAt (handleVote (handleVote buildFreshState 5 2 3 .loveIt) 5 2 3 .loveIt) m j =
            some s2 ∧
          ∀ key, (voters s2 key).toFinset = (voters s key).toFinset :=
  ⟨by decide, C3_handleVote_twice buildFreshState 5 2 3 .loveIt (by decide)⟩

/-- C4. `handleVote` with the acting member equal to the owner is a no-op: for
every board, slot index and reaction kind the resulting board is the input board
(and so is every voter list in it). -/
theorem C4_handleVote_self (users : List Member) (ownerUserId slotIdx : Nat)
    (reactionKey : ReactionKey) :
    handleVote users ownerUserId ownerUserId slotIdx reactionKey = users ∧
      ∀ (m j : Nat) (key : ReactionKey),
        (slotAt (handleVote users ownerUserId ownerUserId slotIdx reactionKey) m j).map
            (fun s => voters s key) =
          (slotAt users m j).map (fun s => voters s key) := by
  have h : handleVote users ownerUserId ownerUserId slotIdx reactionKey = users := by
    simp [handleVote]
  exact ⟨h, fun m j key => by rw [h]⟩

/-! ## C5, C6: editing and clearing the targeted slot -/

/-- Looking up a slot by member id after a `map` that keeps ids. -/
theorem findSlot_map (F : Member → Member) (hF : ∀ u, (F u).id = u.id)
    (users : List Member) (userId slotId : Nat) :
    findSlot (users.map F) userId slotId =
      (users.find? fun u => u.id == userId).bind fun u => (F u).slots[slotId]? := by
  unfold findSlot
  rw [List.find?_map]
  have hp : ((fun u : Member => u.id == userId) ∘ F) = fun u => u.id == userId := by
    funext u
    simp [hF u]
  rw [hp]
  cases users.find? fun u => u.id == userId <;> rfl

/-- The member `findSlot` reads, from a successful lookup. -/
theorem findSlot_some (users : List Member) (userId slotId : Nat) (s : Slot)
    (hs : findSlot users userId slotId = some s) :
    ∃ u, (users.find? fun u => u.id == userId) = some u ∧ u.id = userId ∧
      u.slots[slotId]? = some s := by
  unfold findSlot at hs
  cases hf : users.find? fun u => u.id == userId with
  | none => simp [hf] at hs
  | some u =>
    simp only [hf, Option.some_bind] at hs
    have hid := List.find?_some hf
    exact ⟨u, rfl, by simpa using hid, hs⟩

/-- C5. For a member id and slot index that designate a slot `s` of the board
(the slot `openEdit` reads): when the trimmed title is empty `saveEdit`
(editSlot) returns the board unchanged; otherwise the designated slot afterwards
has the trimmed title, the trimmed description, the genre and rating of the form,
and the id and votes `s` had before. -/
theorem C5_saveEdit_slot (users : List Member) (editTarget : EditTarget) (form : Form)
    (s : Slot) (hs : findSlot users editTarget.userId editTarget.slotId = some s) :
    (jsTrim form.title = "" → saveEdit users editTarget form = users) ∧
    (jsTrim form.title ≠ "" →
      findSlot (saveEdit users editTarget form) editTarget.userId editTarget.slotId =
        some { id := s.id, title := jsTrim form.title, description := jsTrim form.description,
               genre := form.genre, rating := form.rating, votes := s.votes }) := by
  constructor
  · intro h
    simp [saveEdit, h]
  · intro h
    obtain ⟨u, hf, hid, hu⟩ := findSlot_some users _ _ s hs
    simp only [saveEdit, if_neg h]
    rw [findSlot_map _ (by intro u; split <;> rfl), hf]
    simp only [Option.some_bind, ne_eq, hid, not_true_eq_false, if_false, jsMapIdx_getElem?, hu,
      Option.map_some']

/-- The witness of C5: on the seeded board, member 0 fills slot 0. -/
theorem C5_saveEdit_slot_witness :
    findSlot buildFreshState 0 0 =
        some { id := 0, title := "", description := "", genre := "", rating := 0,
               votes := some emptyVotes } ∧
      findSlot (saveEdit buildFreshState ⟨0, 0⟩ ⟨"  Arrival ", " first contact\n", "Sci-Fi", 5⟩)
          0 0 =
        some { id := 0, title := "Arrival", description := "first contact", genre := "Sci-Fi",
               rating := 5, votes := some emptyVotes } :=
  ⟨by decide,
   (C5_saveEdit_slot buildFreshState ⟨0, 0⟩ ⟨"  Arrival ", " first contact\n", "Sci-Fi", 5⟩
      { id := 0, title := "", description := "", genre := "", rating := 0,
        votes := some emptyVotes } (by decide)).2 (by decide)⟩

/-- C6. For a member id and slot index that designate a slot of the board,
whatever that slot holds, `clearSlot` leaves there the empty slot: title,
description and genre are the empty string, rating is 0, and the voter lists of
`wantToWatch`, `loveIt` and `seenIt` are empty (its `id` is the slot index). -/
theorem C6_clearSlot_empty (users : List Member) (userId slotId : Nat) (s : Slot)
    (hs : findSlot users userId slotId = some s) :
    findSlot (clearSlot users userId slotId) userId slotId =
        some { id := slotId, title := "", description := "", genre := "", rating := 0,
               votes := some { wantToWatch := some [], loveIt := some [], seenIt := some [] } } ∧
      ∀ s1, findSlot (clearSlot users userId slotId) userId slotId = some s1 →
        s1.title = "" ∧ s1.description = "" ∧ s1.genre = "" ∧ s1.rating = 0 ∧
        voters s1 .wantToWatch = [] ∧ voters s1 .loveIt = [] ∧ voters s1 .seenIt = [] := by
  obtain ⟨u, hf, hid, hu⟩ := findSlot_some users _ _ s hs
  have h : findSlot (clearSlot users userId slotId) userId slotId =
      some { id := slotId, title := "", description := "", genre := "", rating := 0,
             votes := some { wantToWatch := some [], loveIt := some [], seenIt := some [] } } := by
    simp only [clearSlot]
    rw [findSlot_map _ (by intro u; split <;> rfl), hf]
    simp only [Option.some_bind, ne_eq, hid, not_true_eq_false, if_false, jsMapIdx_getElem?, hu,
      Option.map_some', emptyVotes]
  refine ⟨h, ?_⟩
  intro s1 hs1
  rw [h] at hs1
  cases hs1
  exact ⟨rfl, rfl, rfl, rfl, rfl, rfl, rfl⟩

/-- The witness of C6: clearing a filled slot that already has a vote. -/
theorem C6_clearSlot_empty_witness :
    findSlot
        (handleVote (saveEdit buildFreshState ⟨0, 0⟩ ⟨"Arrival", "", "Sci-Fi", 5⟩) 1 0 0 .loveIt)
        0 0 =
      some { id := 0, title := "Arrival", description := "", genre := "Sci-Fi", rating := 5,
             votes := some { wantToWatch := some [], loveIt := some [1], seenIt := some [] } } ∧
    findSlot
        (clearSlot
          (handleVote (saveEdit buildFreshState ⟨0, 0⟩ ⟨"Arrival", "", "Sci-Fi", 5⟩) 1 0 0 .loveIt)
          0 0)
        0 0 =
      some { id := 0, title := "", description := "", genre := "", rating := 0,
             votes := some { wantToWatch := some [], loveIt := some [], seenIt := some [] } } :=
  ⟨by decide,
   (C6_clearSlot_empty
      (handleVote (saveEdit buildFreshState ⟨0, 0⟩ ⟨"Arrival", "", "Sci-Fi", 5⟩) 1 0 0 .loveIt)
      0 0
      { id := 0, title := "Arrival", description := "", genre := "Sci-Fi", rating := 5,
        votes := some { wantToWatch := some [], loveIt := some [1], seenIt := some [] } }
      (by decide)).1⟩

/-! ## C7: renaming a member -/

/-- C7. On a board with distinct member ids: when the trimmed new name is empty
`saveRename` (renameMember) returns the board unchanged; otherwise, if a member
`u` has the id, the new board is the old one with `u` alone replaced by the
member with the trimmed new name and the id, color and slots of `u`, and if no
member has the id the board is returned as it is. -/
theorem C7_saveRename_frame (users : List Member) (renamingUser : Nat) (renameVal : String)
    (hnd : (users.map fun x => x.id).Nodup) :
    (jsTrim renameVal = "" → saveRename users renamingUser renameVal = users) ∧
    (jsTrim renameVal ≠ "" →
      (∀ (m : Nat) (u : Member), users[m]? = some u → u.id = renamingUser →
        saveRename users renamingUser renameVal =
          users.set m
            { id := u.id, name := jsTrim renameVal, color := u.color, slots := u.slots }) ∧
      ((∀ u ∈ users, u.id ≠ renamingUser) →
        saveRename users renamingUser renameVal = users)) := by
  constructor
  · intro h
    simp [saveRename, h]
  · intro h
    constructor
    · intro m u hm hid
      subst hid
      simp only [saveRename, if_neg h]
      exact map_owner_eq_set (fun x => { x with name := jsTrim renameVal }) users m u hnd hm
    · intro hno
      simp only [saveRename, if_neg h]
      exact map_owner_eq_self (fun x => { x with name := jsTrim renameVal }) users renamingUser hno

/-- The witness of C7: renaming member 3 of the seeded board. -/
theorem C7_saveRename_frame_witness :
    (buildFreshState.map fun x => x.id).Nodup ∧
      ∀ (m : Nat) (u : Member), buildFreshState[m]? = some u → u.id = 3 →
        saveRename buildFreshState 3 " Dee " =
          buildFreshState.set m
            { id := u.id, name := "Dee", color := u.color, slots := u.slots } :=
  ⟨by decide,
   ((C7_saveRename_frame buildFreshState 3 " Dee " (by decide)).2 (by decide)).1⟩

/-! ## Lemmas on properties of all slots -/

theorem mem_jsMapIdx {α β : Type} (f : Nat → α → β) (xs : List α) (y : β)
    (h : y ∈ jsMapIdx f xs) : ∃ i x, xs[i]? = some x ∧ y = f i x := by
  obtain ⟨i, hi⟩ := List.mem_iff_getElem?.1 h
  rw [jsMapIdx_getElem?] at hi
  cases hx : xs[i]? with
  | none => simp [hx] at hi
  | some x =>
    simp only [hx, Option.map_some', Option.some.injEq] at hi
    exact ⟨i, x, hx, hi.symm⟩

/-- A property of all slots survives replacing the slot at index `j` of a member
when the replacement has the property. -/
theorem forall_slots_replace (P : Slot → Prop) (g : Nat → Slot → Slot) (j : Nat) (u : Member)
    (hu : ∀ s ∈ u.slots, P s) (hg : ∀ s, u.slots[j]? = some s → P (g j s)) :
    ∀ s ∈ jsMapIdx (fun i s => if i ≠ j then s else g i s) u.slots, P s := by
  intro s hs
  obtain ⟨i, x, hx, rfl⟩ := mem_jsMapIdx _ _ _ hs
  by_cases hij : i = j
  · subst hij
    simpa using hg x hx
  · simpa [hij] using hu x (List.getElem?_mem hx)

/-- A property of all slots of the board survives a `map` over the members that
keeps it member by member. -/
theorem forall_slots_map (P : Slot → Prop) (F : Member → Member) (users : List Member)
    (hF : ∀ u ∈ users, (∀ s ∈ u.slots, P s) → ∀ s ∈ (F u).slots, P s)
    (h : ∀ u ∈ users, ∀ s ∈ u.slots, P s) :
    ∀ u ∈ users.map F, ∀ s ∈ u.slots, P s := by
  intro u hu
  obtain ⟨u0, hu0, rfl⟩ := List.mem_map.1 hu
  exact hF u0 hu0 (h u0 hu0)

/-- The shape shared by `saveEdit`, `clearSlot` and `handleVote`: a property of
all slots survives when the replacement of each targeted slot has it. -/
theorem forall_slots_target (P : Slot → Prop) (g : Nat → Slot → Slot) (users : List Member)
    (userId j : Nat) (h : ∀ u ∈ users, ∀ s ∈ u.slots, P s)
    (hg : ∀ u ∈ users, u.id = userId → ∀ s, u.slots[j]? = some s → P (g j s)) :
    ∀ u ∈ users.map (fun u => if u.id ≠ userId then u else
        { u with slots := jsMapIdx (fun i s => if i ≠ j then s else g i s) u.slots }),
      ∀ s ∈ u.slots, P s := by
  apply forall_slots_map P _ users _ h
  intro u hu hall
  by_cases hid : u.id = userId
  · simp only [ne_eq, hid, not_true_eq_false, if_false]
    exact forall_slots_replace P g j u hall (hg u hu hid)
  · simpa [hid] using hall

/-! ## C8: the unoccupied-slot invariant -/

/-- C8, as stated, fails: the seeded board satisfies the unoccupied-slot
invariant, and after member 1 votes `loveIt` on the (unoccupied) slot 0 of
member 0 the board has a slot with empty title and a voter. -/
theorem C8_unoccupied_counterexample :
    UnoccupiedOk buildFreshState ∧
      ¬ UnoccupiedOk (applyMutation buildFreshState (.vote 1 0 0 .loveIt)) ∧
      findSlot (applyMutation buildFreshState (.vote 1 0 0 .loveIt)) 0 0 =
        some { id := 0, title := "", description := "", genre := "", rating := 0,
               votes := some { wantToWatch := some [], loveIt := some [1], seenIt := some [] } } := by
  decide

/-- C8, amended. On a board satisfying the unoccupied-slot invariant, the
invariant holds again after `saveEdit`, `clearSlot` and `saveRename` with any
arguments, after `handleVote` with actor equal to owner, and after `handleVote`
whenever every slot it targets (index `slotIdx` of a member with id
`ownerUserId`) has a non-empty title. -/
theorem C8_unoccupied_preserved (users : List Member) (h : UnoccupiedOk users) :
    (∀ editTarget form, UnoccupiedOk (saveEdit users editTarget form)) ∧
    (∀ userId slotId, UnoccupiedOk (clearSlot users userId slotId)) ∧
    (∀ renamingUser renameVal, UnoccupiedOk (saveRename users renamingUser renameVal)) ∧
    (∀ ownerUserId slotIdx reactionKey,
      UnoccupiedOk (handleVote users ownerUserId ownerUserId slotIdx reactionKey)) ∧
    (∀ activeUserId ownerUserId slotIdx reactionKey,
      (∀ u ∈ users, u.id = ownerUserId → ∀ s ∈ u.slots[slotIdx]?, s.title ≠ "") →
      UnoccupiedOk (handleVote users activeUserId ownerUserId slotIdx reactionKey)) := by
  refine ⟨?_, ?_, ?_, ?_, ?_⟩
  · intro editTarget form
    unfold saveEdit
    split
    · exact h
    · rename_i hne
      apply forall_slots_target SlotUnoccupiedOk
        (fun _ s => { s with title := jsTrim form.title, description := jsTrim form.description,
                             genre := form.genre, rating := form.rating }) users _ _ h
      intro u _ _ s _ htitle
      exact absurd htitle hne
  · intro userId slotId
    unfold clearSlot
    apply forall_slots_target SlotUnoccupiedOk
      (fun i _ => { id := i, title := "", description := "", genre := "", rating := 0,
                    votes := some emptyVotes }) users _ _ h
    intro u _ _ s _ _
    refine ⟨rfl, rfl, rfl, ?_⟩
    intro key
    cases key <;> rfl
  · intro renamingUser renameVal
    unfold saveRename
    split
    · exact h
    · apply forall_slots_map SlotUnoccupiedOk _ users _ h
      intro u _ hall
      split <;> exact hall
  · intro ownerUserId slotIdx reactionKey
    simpa [handleVote] using h
  · intro activeUserId ownerUserId slotIdx reactionKey hocc
    unfold handleVote
    split
    · exact h
    · apply forall_slots_target SlotUnoccupiedOk
        (fun _ s => toggleSlot s activeUserId reactionKey) users _ _ h
      intro u hu hid s hs htitle
      exact absurd htitle (hocc u hu hid s hs)

/-- The witness of C8 (amended): once member 0 has filled slot 0, a vote of
member 1 on that slot keeps the invariant. -/
theorem C8_unoccupied_preserved_witness :
    UnoccupiedOk (saveEdit buildFreshState ⟨0, 0⟩ ⟨"Arrival", "", "Sci-Fi", 5⟩) ∧
    (∀ u ∈ saveEdit buildFreshState ⟨0, 0⟩ ⟨"Arrival", "", "Sci-Fi", 5⟩,
      u.id = 0 → ∀ s ∈ u.slots[0]?, s.title ≠ "") ∧
    UnoccupiedOk
      (handleVote (saveEdit buildFreshState ⟨0, 0⟩ ⟨"Arrival", "", "Sci-Fi", 5⟩) 1 0 0 .loveIt) :=
  ⟨by decide, by decide,
   (C8_unoccupied_preserved (saveEdit buildFreshState ⟨0, 0⟩ ⟨"Arrival", "", "Sci-Fi", 5⟩)
      (by decide)).2.2.2.2 1 0 0 .loveIt (by decide)⟩

/-! ## C9: no repeated voter -/

theorem voters_toggleSlot_nodup (s : Slot) (activeUserId : Nat) (reactionKey : ReactionKey)
    (hs : ∀ key, (voters s key).Nodup) :
    ∀ key, (voters (toggleSlot s activeUserId reactionKey) key).Nodup := by
  intro key
  by_cases hk : key = reactionKey
  · subst hk
    rw [voters_toggleSlot_self]
    by_cases hin : activeUserId ∈ voters s key
    · have hc : (voters s key).contains activeUserId = true := by simpa using hin
      rw [if_pos hc]
      exact (hs key).filter _
    · have hc : ¬ ((voters s key).contains activeUserId = true) := by simpa using hin
      rw [if_neg hc]
      rw [List.nodup_append]
      refine ⟨hs key, List.nodup_singleton _, ?_⟩
      intro a ha hb
      rw [List.mem_singleton] at hb
      subst hb
      exact hin ha
  · simp only [voters, votesEntry_toggleSlot_other _ _ _ _ hk]
    exact hs key

theorem applyMutation_votersNodup (users : List Member) (op : Mutation)
    (h : VotersNodup users) : VotersNodup (applyMutation users op) := by
  cases op with
  | edit editTarget form =>
    simp only [applyMutation, saveEdit]
    split
    · exact h
    · apply forall_slots_target (fun s => ∀ key, (voters s key).Nodup)
        (fun _ s => { s with title := jsTrim form.title, description := jsTrim form.description,
                             genre := form.genre, rating := form.rating }) users _ _ h
      intro u hu _ s hs
      exact h u hu s (List.getElem?_mem hs)
  | clear userId slotId =>
    simp only [applyMutation, clearSlot]
    apply forall_slots_target (fun s => ∀ key, (voters s key).Nodup)
      (fun i _ => { id := i, title := "", description := "", genre := "", rating := 0,
                    votes := some emptyVotes }) users _ _ h
    intro u _ _ s _ key
    cases key <;> exact List.nodup_nil
  | vote activeUserId ownerUserId slotIdx reactionKey =>
    simp only [applyMutation, handleVote]
    split
    · exact h
    · apply forall_slots_target (fun s => ∀ key, (voters s key).Nodup)
        (fun _ s => toggleSlot s activeUserId reactionKey) users _ _ h
      intro u hu _ s hs
      exact voters_toggleSlot_nodup s activeUserId reactionKey (h u hu s (List.getElem?_mem hs))
  | rename renamingUser renameVal =>
    simp only [applyMutation, saveRename]
    split
    · exact h
    · apply forall_slots_map (fun s => ∀ key, (voters s key).Nodup) _ users _ h
      intro u _ hall
      split <;> exact hall

/-- C9. A member id appears at most once per reaction kind per slot: if no voter
list of the board repeats an id, then none does after `handleVote`, `saveEdit`,
`clearSlot` or `saveRename` with any arguments; hence no voter list repeats an id
in any board reachable from `buildFreshState` by mutations. -/
theorem C9_voters_nodup :
    (∀ (users : List Member) (op : Mutation),
        VotersNodup users → VotersNodup (applyMutation users op)) ∧
    (∀ users : List Member, Reachable users →
        ∀ u ∈ users, ∀ s ∈ u.slots, ∀ key, (voters s key).Nodup) := by
  refine ⟨applyMutation_votersNodup, ?_⟩
  intro users hreach
  induction hreach with
  | fresh =>
    have h : VotersNodup buildFreshState := by decide
    exact h
  | @step b op _ ih => exact applyMutation_votersNodup b op ih

/-- A use of C9: a reachable board with a vote in it has no repeated voter. -/
theorem C9_voters_nodup_witness :
    VotersNodup (applyMutation (applyMutation buildFreshState
      (.edit ⟨0, 0⟩ ⟨"Arrival", "", "Sci-Fi", 5⟩)) (.vote 1 0 0 .loveIt)) :=
  C9_voters_nodup.2 _ (.step _ (.step _ .fresh))

/-! ## C10: migration of a present payload -/

theorem slotAt_migrate (users : List Member) (m j : Nat) :
    slotAt (migrate users) m j =
      (slotAt users m j).map fun s => { s with votes := some (s.votes.getD emptyVotes) } := by
  unfold slotAt migrate
  rw [List.getElem?_map]
  cases users[m]? with
  | none => rfl
  | some u => simp

theorem migrate_eq_self (users : List Member)
    (h : ∀ u ∈ users, ∀ s ∈ u.slots, s.votes ≠ none) : migrate users = users := by
  unfold migrate
  conv_rhs => rw [← List.map_id users]
  apply List.map_congr_left
  intro u hu
  have hslots : (u.slots.map fun s => { s with votes := some (s.votes.getD emptyVotes) })
      = u.slots := by
    conv_rhs => rw [← List.map_id u.slots]
    apply List.map_congr_left
    intro s hs
    cases hv : s.votes with
    | none => exact absurd hv (h u hu s hs)
    | some v =>
      cases s
      simp only at hv
      simp [hv]
  rw [hslots]
  rfl

/-- C10. The migration of the snapshot handler keeps the members in place with
their id, name, color and number of slots; a slot without `votes` becomes the
same slot (id, title, description, genre, rating) with the three empty voter
lists; a slot with `votes` is passed through as it is; and a payload in which
every slot has `votes` is returned unchanged. -/
theorem C10_migrate (users : List Member) :
    (migrate users).length = users.length ∧
    (∀ (m : Nat) (u : Member), users[m]? = some u →
      ∃ u1, (migrate users)[m]? = some u1 ∧ u1.id = u.id ∧ u1.name = u.name ∧
        u1.color = u.color ∧ u1.slots.length = u.slots.length) ∧
    (∀ (m j : Nat) (s : Slot), slotAt users m j = some s → s.votes = none →
      slotAt (migrate users) m j =
        some { id := s.id, title := s.title, description := s.description, genre := s.genre,
               rating := s.rating,
               votes := some { wantToWatch := some [], loveIt := some [], seenIt := some [] } }) ∧
    (∀ (m j : Nat) (s : Slot), slotAt users m j = some s → s.votes ≠ none →
      slotAt (migrate users) m j = some s) ∧
    ((∀ u ∈ users, ∀ s ∈ u.slots, s.votes ≠ none) → migrate users = users) := by
  refine ⟨by simp [migrate], ?_, ?_, ?_, migrate_eq_self users⟩
  · intro m u hm
    refine ⟨{ u with slots := u.slots.map fun s =>
      { s with votes := some (s.votes.getD emptyVotes) } }, ?_, rfl, rfl, rfl, ?_⟩
    · simp only [migrate, List.getElem?_map, hm, Option.map_some']
    · simp
  · intro m j s hs hv
    rw [slotAt_migrate, hs]
    simp [hv, emptyVotes]
  · intro m j s hs hv
    rw [slotAt_migrate, hs]
    cases hv1 : s.votes with
    | none => exact absurd hv1 hv
    | some v =>
      cases s
      simp only at hv1
      simp [hv1]

/-- The migration evaluated on a legacy payload with one slot without `votes`
and one slot with a partial `votes` object. -/
theorem migrate_legacy_example :
    migrate
        [{ id := 0, name := "Alex", color := "#E63946",
           slots := [{ id := 0, title := "Heat", description := "", genre := "Action",
                       rating := 4, votes := none },
                     { id := 1, title := "Up", description := "", genre := "Animation",
                       rating := 5,
                       votes := some { wantToWatch := none, loveIt := some [3],
                                       seenIt := none } }] }] =
      [{ id := 0, name := "Alex", color := "#E63946",
         slots := [{ id := 0, title := "Heat", description := "", genre := "Action",
                     rating := 4,
                     votes := some { wantToWatch := some [], loveIt := some [],
                                     seenIt := some [] } },
                   { id := 1, title := "Up", description := "", genre := "Animation",
                     rating := 5,
                     votes := some { wantToWatch := none, loveIt := some [3],
                                     seenIt := none } }] }] := by
  decide

/-! ## C11, C12: the migration applied twice, and the keys of `votes` -/

theorem migrate_votes_ne_none (users : List Member) :
    ∀ u ∈ migrate users, ∀ s ∈ u.slots, s.votes ≠ none := by
  intro u hu s hs
  unfold migrate at hu
  obtain ⟨u0, _, rfl⟩ := List.mem_map.1 hu
  obtain ⟨s0, _, rfl⟩ := List.mem_map.1 hs
  simp

/-- C11. The migration is idempotent: for every `users` sequence of a payload,
migrating the migrated board gives the migrated board. -/
theorem C11_migrate_idempotent (users : List Member) :
    migrate (migrate users) = migrate users :=
  migrate_eq_self (migrate users) (migrate_votes_ne_none users)

/-- C12, as stated, fails: a slot whose `votes` object has only the key `loveIt`
is passed through by the migration as it is, so the migrated slot has no
`wantToWatch` and no `seenIt` key. -/
theorem C12_all_keys_counterexample :
    slotAt
        (migrate
          [{ id := 0, name := "Alex", color := "#E63946",
             slots := [{ id := 0, title := "Up", description := "", genre := "Animation",
                         rating := 5,
                         votes := some { wantToWatch := none, loveIt := some [3],
                                         seenIt := none } }] }])
        0 0 =
      some { id := 0, title := "Up", description := "", genre := "Animation", rating := 5,
             votes := some { wantToWatch := none, loveIt := some [3], seenIt := none } } ∧
    votesEntry
        { id := 0, title := "Up", description := "", genre := "Animation", rating := 5,
          votes := some { wantToWatch := none, loveIt := some [3], seenIt := none } }
        .wantToWatch = none := by
  decide

/-- C12, amended. Every slot of the migrated board has a `votes` object; it comes
from the slot `s` at the same position of the payload, and it has all three
reaction kinds as keys when `s` had no `votes` or had all three keys, while a
slot that had a `votes` object (with all or only some of the keys) is passed
through as it is. -/
theorem C12_migrate_votes_present (users : List Member) (m j : Nat) (s1 : Slot)
    (h : slotAt (migrate users) m j = some s1) :
    s1.votes ≠ none ∧
    ∃ s, slotAt users m j = some s ∧
      ((s.votes = none ∨ ∀ key, votesEntry s key ≠ none) → ∀ key, votesEntry s1 key ≠ none) ∧
      (s.votes ≠ none → s1 = s) := by
  rw [slotAt_migrate] at h
  cases hs : slotAt users m j with
  | none => simp [hs] at h
  | some s =>
    simp only [hs, Option.map_some', Option.some.injEq] at h
    subst h
    refine ⟨by simp, s, rfl, ?_, ?_⟩
    · rintro (hv | hall) key
      · cases key <;> simp [votesEntry, hv, emptyVotes, Votes.get]
      · cases hv : s.votes with
        | none => cases key <;> simp [votesEntry, emptyVotes, Votes.get]
        | some v =>
          have := hall key
          simpa [votesEntry, hv] using this
    · intro hv
      cases hv1 : s.votes with
      | none => exact absurd hv1 hv
      | some v =>
        cases s
        simp only at hv1
        simp [hv1]

/-- The witness of C12 (amended): a legacy slot without `votes`. -/
theorem C12_migrate_votes_present_witness :
    slotAt
        (migrate
          [{ id := 0, name := "Alex", color := "#E63946",
             slots := [{ id := 0, title := "Heat", description := "", genre := "Action",
                         rating := 4, votes := none }] }])
        0 0 =
      some { id := 0, title := "Heat", description := "", genre := "Action", rating := 4,
             votes := some emptyVotes } ∧
    (some emptyVotes : Option Votes) ≠ none :=
  ⟨by decide,
   (C12_migrate_votes_present
      [{ id := 0, name := "Alex", color := "#E63946",
         slots := [{ id := 0, title := "Heat", description := "", genre := "Action",
                     rating := 4, votes := none }] }]
      0 0
      { id := 0, title := "Heat", description := "", genre := "Action", rating := 4,
        votes := some emptyVotes }
      (by decide)).1⟩

/-! ## C13, C14, C15: the snapshot and error handlers -/

/-- C13. When the delivered snapshot is absent, the handler sets the mirror to
`buildFreshState()` and hands that same board to the one `setDoc` it issues. The
board has members with ids 0..9 in order, named Alex, Blake, Casey, Dana, Ellis,
Fran, Grey, Harper, Indigo, Jules in order, each with slots with ids 0..9 that
are unoccupied with three empty voter lists; its occupied-slot count and its
reaction count are 0. -/
theorem C13_absent_snapshot_seeds (st : SyncState) :
    onSnapshotHandler st none =
        .ok ({ users := some buildFreshState, loading := false }, [buildFreshState]) ∧
    (buildFreshState.map fun u => u.id) = [0, 1, 2, 3, 4, 5, 6, 7, 8, 9] ∧
    (buildFreshState.map fun u => u.name) =
        ["Alex", "Blake", "Casey", "Dana", "Ellis", "Fran", "Grey", "Harper", "Indigo",
         "Jules"] ∧
    (∀ u ∈ buildFreshState,
        (u.slots.map fun s => s.id) = [0, 1, 2, 3, 4, 5, 6, 7, 8, 9] ∧
        ∀ s ∈ u.slots,
          s.title = "" ∧ s.description = "" ∧ s.genre = "" ∧ s.rating = 0 ∧
          s.votes = some { wantToWatch := some [], loveIt := some [], seenIt := some [] }) ∧
    totalPicks buildFreshState = 0 ∧
    totalReactions buildFreshState = 0 := by
  refine ⟨rfl, ?_, ?_, ?_, ?_, ?_⟩ <;> decide

theorem presentAll_map_some {α : Type} (l : List α) :
    presentAll (l.map some) = some l := by
  induction l with
  | nil => rfl
  | cons a l ih => simp [presentAll, ih]

theorem Member.read_toDoc (u : Member) : u.toDoc.read = some u := by
  simp [Member.toDoc, DocMember.read, presentAll_map_some]

theorem BoardDoc.read_ofUsers (users : List Member) :
    (BoardDoc.ofUsers users).read = some users := by
  have h1 : (users.map fun u => some u.toDoc) = (users.map Member.toDoc).map some := by
    rw [List.map_map]
    rfl
  have h2 : (users.map Member.toDoc).map DocMember.read = users.map some := by
    rw [List.map_map]
    apply List.map_congr_left
    intro u _
    exact Member.read_toDoc u
  simp only [BoardDoc.ofUsers, BoardDoc.read, Option.some_bind, h1, presentAll_map_some, h2]

/-- The handler returns normally on a present snapshot exactly when every part
the migration reads is present. -/
theorem onSnapshotHandler_present_ok_iff (st : SyncState) (data : BoardDoc) :
    (∃ r, onSnapshotHandler st (some data) = .ok r) ↔ ∃ users, data.read = some users := by
  cases h : data.read with
  | none => simp [onSnapshotHandler, h]
  | some users => simp [onSnapshotHandler, h]

/-- C14, as stated, fails: for a present snapshot without `users` the handler
throws, as it does for one with a member without `slots`, and for a present
snapshot with a single member it installs the migrated delivered content, not
the default board, and writes nothing. -/
theorem C14_malformed_counterexample :
    onSnapshotHandler initialSyncState (some { users := none }) = .error .typeError ∧
    onSnapshotHandler initialSyncState
        (some { users := some [some { id := 0, name := "Solo", color := "#000000",
                                      slots := some [] }] }) =
      .ok ({ users := some [{ id := 0, name := "Solo", color := "#000000", slots := [] }],
             loading := false }, []) ∧
    [({ id := 0, name := "Solo", color := "#000000", slots := [] } : Member)] ≠
      buildFreshState ∧
    onSnapshotHandler initialSyncState
        (some { users := some [some { id := 0, name := "Alex", color := "#E63946",
                                      slots := none }] }) = .error .typeError :=
  ⟨rfl, rfl, by decide, rfl⟩

/-- C14, amended. When a delivered snapshot is present and its document has a
`users` sequence of members that each have a `slots` sequence of slots (the
document `BoardDoc.ofUsers users`), whatever its number of members, the handler
does not throw, writes nothing, and the mirror becomes the migrated delivered
content, which has as many members as were delivered. -/
theorem C14_present_snapshot_installed (st : SyncState) (users : List Member) :
    onSnapshotHandler st (some (BoardDoc.ofUsers users)) =
        .ok ({ users := some (migrate users), loading := false }, []) ∧
    (migrate users).length = users.length := by
  refine ⟨?_, by simp [migrate]⟩
  simp only [onSnapshotHandler, BoardDoc.read_ofUsers]

/-- C15, as stated, fails: with a mirror in which member 0 has been renamed, the
error handler replaces the mirror by the default board. -/
theorem C15_error_keeps_mirror_counterexample :
    (onSnapshotError
        { users := some (saveRename buildFreshState 0 "Zed"), loading := false }).users =
      some buildFreshState ∧
    saveRename buildFreshState 0 "Zed" ≠ buildFreshState := by
  decide

/-- C15, amended. On a subscription error the mirror becomes the default board of
`buildFreshState`, whether or not a mirror existed, and loading ends. -/
theorem C15_error_installs_default (st : SyncState) :
    (onSnapshotError st).users = some buildFreshState ∧
    (onSnapshotError st).loading = false := by
  exact ⟨rfl, rfl⟩

/-! ## Lemmas on the stable descending sort -/

theorem insertDesc_perm {α : Type} (key : α → Nat) (a : α) (l : List α) :
    (insertDesc key a l).Perm (a :: l) := by
  induction l with
  | nil => exact List.Perm.refl _
  | cons b l ih =>
    unfold insertDesc
    split
    · exact List.Perm.refl _
    · exact (List.Perm.cons b ih).trans (List.Perm.swap a b l)

theorem sortDesc_perm {α : Type} (key : α → Nat) (l : List α) :
    (sortDesc key l).Perm l := by
  induction l with
  | nil => exact List.Perm.refl _
  | cons a l ih => exact (insertDesc_perm key a _).trans (List.Perm.cons a ih)

theorem insertDesc_sorted {α : Type} (key : α → Nat) (a : α) (l : List α)
    (h : l.Pairwise fun x y => key y ≤ key x) :
    (insertDesc key a l).Pairwise fun x y => key y ≤ key x := by
  induction l with
  | nil => simp [insertDesc]
  | cons b l ih =>
    rw [List.pairwise_cons] at h
    unfold insertDesc
    split
    · rename_i hba
      rw [List.pairwise_cons]
      refine ⟨?_, List.pairwise_cons.2 h⟩
      intro x hx
      rcases List.mem_cons.1 hx with rfl | hx
      · exact hba
      · exact le_trans (h.1 x hx) hba
    · rename_i hba
      rw [List.pairwise_cons]
      refine ⟨?_, ih h.2⟩
      intro x hx
      rcases List.mem_cons.1 ((insertDesc_perm key a l).mem_iff.1 hx) with rfl | hx
      · omega
      · exact h.1 x hx

theorem sortDesc_sorted {α : Type} (key : α → Nat) (l : List α) :
    (sortDesc key l).Pairwise fun x y => key y ≤ key x := by
  induction l with
  | nil => exact List.Pairwise.nil
  | cons a l ih => exact insertDesc_sorted key a _ ih

theorem insertDesc_filter_key {α : Type} (key : α → Nat) (k : Nat) (a : α) (l : List α) :
    (insertDesc key a l).filter (fun x => key x == k) =
      (a :: l).filter (fun x => key x == k) := by
  induction l with
  | nil => rfl
  | cons b l ih =>
    unfold insertDesc
    split
    · rfl
    · rename_i hba
      by_cases hb : key b = k
      · have ha : key a ≠ k := by omega
        rw [List.filter_cons_of_pos (by simpa using hb), ih,
          List.filter_cons_of_neg (by simpa using ha),
          List.filter_cons_of_neg (by simpa using ha),
          List.filter_cons_of_pos (by simpa using hb)]
      · rw [List.filter_cons_of_neg (by simpa using hb), ih]
        by_cases ha : key a = k
        · rw [List.filter_cons_of_pos (by simpa using ha),
            List.filter_cons_of_pos (by simpa using ha),
            List.filter_cons_of_neg (by simpa using hb)]
        · rw [List.filter_cons_of_neg (by simpa using ha),
            List.filter_cons_of_neg (by simpa using ha),
            List.filter_cons_of_neg (by simpa using hb)]

/-- Stability: the entries with a given key keep their order. -/
theorem sortDesc_filter_key {α : Type} (key : α → Nat) (k : Nat) (l : List α) :
    (sortDesc key l).filter (fun x => key x == k) = l.filter (fun x => key x == k) := by
  induction l with
  | nil => rfl
  | cons a l ih =>
    show (insertDesc key a (sortDesc key l)).filter _ = _
    rw [insertDesc_filter_key]
    by_cases ha : key a = k
    · rw [List.filter_cons_of_pos (by simpa using ha),
        List.filter_cons_of_pos (by simpa using ha), ih]
    · rw [List.filter_cons_of_neg (by simpa using ha),
        List.filter_cons_of_neg (by simpa using ha), ih]

theorem totalVotesOn_eq (s : Slot) :
    totalVotesOn s =
      (voters s .wantToWatch).length + (voters s .loveIt).length + (voters s .seenIt).length := by
  unfold totalVotesOn voters votesEntry
  cases s.votes with
  | none => rfl
  | some v =>
    obtain ⟨w, l, t⟩ := v
    cases w <;> cases l <;> cases t <;>
      simp [Votes.values, Votes.get, List.filterMap]

/-! ## C16: `allPicks` in flatten order -/

theorem jsParseInt_memberFilterValue (n : Nat) (hn : n < 10) :
    jsParseInt (toString n) = some (n : Int) ∧ toString n ≠ "" := by
  interval_cases n <;> decide

theorem picksOf_cons (u : Member) (us : List Member) :
    picksOf (u :: us) = picksOf [u] ++ picksOf us := by
  simp [picksOf]

theorem picksOf_single_getElem? (u : Member) (i : Nat) :
    (picksOf [u])[i]? = u.slots[i]?.map fun s =>
      { toSlot := s, userName := u.name, userColor := u.color, userId := u.id, slotIdx := i } := by
  simp [picksOf, jsMapIdx_getElem?]

/-- C16. With sort mode "recent", `allPicks` is the flatten sequence restricted
to the entries with non-empty title, with genre equal to `filterGenre` when a
genre filter is set (`filterGenre` is not `""`), and with owner id equal to the
member filter when one of the ids 0..9 is chosen (0 included). The flatten
sequence lists the members in board order and, within a member, the slots by
ascending index; the entry of slot `i` of member `u` carries the slot's fields
and `u.name`, `u.color`, `u.id` and `i`. -/
theorem C16_allPicks_recent (users : List Member) (filterGenre : String)
    (memberFilter : Option Nat) (hm : ∀ n, memberFilter = some n → n < 10) :
    allPicks users filterGenre (memberFilterValue memberFilter) "recent" =
        (picksOf users).filter (fun p =>
          decide (p.title ≠ "") &&
          (decide (filterGenre = "") || decide (p.genre = filterGenre)) &&
          (match memberFilter with
           | none => true
           | some n => decide (p.userId = n))) ∧
    (∀ (u : Member) (us : List Member), picksOf (u :: us) = picksOf [u] ++ picksOf us) ∧
    (∀ (u : Member) (i : Nat),
      (picksOf [u])[i]? = u.slots[i]?.map fun s =>
        { toSlot := s, userName := u.name, userColor := u.color, userId := u.id,
          slotIdx := i }) := by
  refine ⟨?_, picksOf_cons, picksOf_single_getElem?⟩
  have h1 : ¬ ("recent" = "votes") := by decide
  have h2 : ¬ ("recent" = "rating") := by decide
  simp only [allPicks, if_neg h1, if_neg h2, List.filter_filter]
  apply List.filter_congr
  intro p _
  cases memberFilter with
  | none =>
    by_cases ht : p.title = "" <;> by_cases hg : filterGenre = "" <;>
      by_cases hpg : p.genre = filterGenre <;> simp [memberFilterValue, ht, hg, hpg]
  | some n =>
    obtain ⟨hp, hne⟩ := jsParseInt_memberFilterValue n (hm n rfl)
    simp only [memberFilterValue, hp]
    have hne1 : (toString n == "") = false := by simpa using hne
    rw [hne1]
    by_cases hid : p.userId = n
    · subst hid
      by_cases ht : p.title = "" <;> by_cases hg : filterGenre = "" <;>
        by_cases hpg : p.genre = filterGenre <;> simp [ht, hg, hpg]
    · have : ¬ ((n : Int) = (p.userId : Int)) := by
        intro h
        exact hid (by exact_mod_cast h.symm)
      simp [hid, this]

/-- The witness of C16: the member filter set to member 0. -/
theorem C16_allPicks_recent_witness :
    allPicks (saveEdit buildFreshState ⟨0, 0⟩ ⟨"Arrival", "", "Sci-Fi", 5⟩) ""
        (memberFilterValue (some 0)) "recent" =
      (picksOf (saveEdit buildFreshState ⟨0, 0⟩ ⟨"Arrival", "", "Sci-Fi", 5⟩)).filter (fun p =>
        decide (p.title ≠ "") &&
        (decide (("" : String) = "") || decide (p.genre = "")) &&
        decide (p.userId = 0)) :=
  (C16_allPicks_recent (saveEdit buildFreshState ⟨0, 0⟩ ⟨"Arrival", "", "Sci-Fi", 5⟩) ""
    (some 0) (by decide)).1

/-! ## C17: `allPicks` sorted by reactions and by rating -/

theorem allPicks_votes (users : List Member) (filterGenre filterUser : String) :
    allPicks users filterGenre filterUser "votes" =
      sortDesc (fun p => totalVotesOn p.toSlot)
        (allPicks users filterGenre filterUser "recent") := by
  have h1 : ¬ ("recent" = "votes") := by decide
  have h2 : ¬ ("recent" = "rating") := by decide
  have h3 : ¬ ("votes" = "rating") := by decide
  simp only [allPicks, if_neg h1, if_neg h2, if_neg h3, if_true]

theorem allPicks_rating (users : List Member) (filterGenre filterUser : String) :
    allPicks users filterGenre filterUser "rating" =
      sortDesc (fun p => p.rating) (allPicks users filterGenre filterUser "recent") := by
  have h1 : ¬ ("recent" = "votes") := by decide
  have h2 : ¬ ("recent" = "rating") := by decide
  have h3 : ¬ ("rating" = "votes") := by decide
  simp only [allPicks, if_neg h1, if_neg h2, if_neg h3, if_true]

/-- C17. For every board and filters, `allPicks` in sort mode "votes" is a
permutation of the "recent" result, ordered by non-increasing `totalVotesOn`, in
which the entries of each given total keep the order they have in the "recent"
result; likewise in sort mode "rating" with the rating as key (so rating 0 comes
last). `totalVotesOn` is the sum of the sizes of the three voter lists. -/
theorem C17_allPicks_sorted (users : List Member) (filterGenre filterUser : String) :
    ((allPicks users filterGenre filterUser "votes").Perm
        (allPicks users filterGenre filterUser "recent") ∧
      (allPicks users filterGenre filterUser "votes").Pairwise
        (fun a b => totalVotesOn b.toSlot ≤ totalVotesOn a.toSlot) ∧
      ∀ k : Nat,
        (allPicks users filterGenre filterUser "votes").filter
            (fun p => totalVotesOn p.toSlot == k) =
          (allPicks users filterGenre filterUser "recent").filter
            (fun p => totalVotesOn p.toSlot == k)) ∧
    ((allPicks users filterGenre filterUser "rating").Perm
        (allPicks users filterGenre filterUser "recent") ∧
      (allPicks users filterGenre filterUser "rating").Pairwise
        (fun a b => b.rating ≤ a.rating) ∧
      ∀ k : Nat,
        (allPicks users filterGenre filterUser "rating").filter (fun p => p.rating == k) =
          (allPicks users filterGenre filterUser "recent").filter (fun p => p.rating == k)) ∧
    (∀ s : Slot,
      totalVotesOn s =
        (voters s .wantToWatch).length + (voters s .loveIt).length +
          (voters s .seenIt).length) := by
  refine ⟨?_, ?_, totalVotesOn_eq⟩
  · rw [allPicks_votes]
    exact ⟨sortDesc_perm _ _, sortDesc_sorted _ _, fun k => sortDesc_filter_key _ k _⟩
  · rw [allPicks_rating]
    exact ⟨sortDesc_perm _ _, sortDesc_sorted (fun p : Pick => p.rating) _,
      fun k => sortDesc_filter_key (fun p : Pick => p.rating) k _⟩

/-! ## C18, C19: the leaderboard -/

/-- C18. `topPicks` has at most 3 entries, every entry has a non-empty title and
a positive `totalVotesOn`, and it is the beginning of an arrangement
`topPicks ++ rest` of all occupied entries with a reaction that is ordered by
non-increasing `totalVotesOn` with the entries of each given total in flatten
order: no entry of `rest` has more reactions than an entry of `topPicks`, and
`rest` is empty when at most 3 occupied entries have a reaction. -/
theorem C18_topPicks (users : List Member) :
    (topPicks users).length ≤ 3 ∧
    (∀ p ∈ topPicks users, p.title ≠ "" ∧ 0 < totalVotesOn p.toSlot) ∧
    (topPicks users).Pairwise (fun a b => totalVotesOn b.toSlot ≤ totalVotesOn a.toSlot) ∧
    ∃ rest : List Pick,
      (topPicks users ++ rest).Perm
        ((picksOf users).filter fun p => p.title != "" && decide (totalVotesOn p.toSlot > 0)) ∧
      (topPicks users ++ rest).Pairwise
        (fun a b => totalVotesOn b.toSlot ≤ totalVotesOn a.toSlot) ∧
      (∀ k : Nat,
        (topPicks users ++ rest).filter (fun p => totalVotesOn p.toSlot == k) =
          ((picksOf users).filter fun p =>
            p.title != "" && decide (totalVotesOn p.toSlot > 0)).filter
            (fun p => totalVotesOn p.toSlot == k)) ∧
      (∀ q ∈ rest, ∀ p ∈ topPicks users, totalVotesOn q.toSlot ≤ totalVotesOn p.toSlot) ∧
      (((picksOf users).filter fun p =>
          p.title != "" && decide (totalVotesOn p.toSlot > 0)).length ≤ 3 → rest = []) ∧
      (rest ≠ [] → (topPicks users).length = 3) := by
  have hsorted := sortDesc_sorted (fun p : Pick => totalVotesOn p.toSlot)
    ((picksOf users).filter fun p => p.title != "" && decide (totalVotesOn p.toSlot > 0))
  have hperm := sortDesc_perm (fun p : Pick => totalVotesOn p.toSlot)
    ((picksOf users).filter fun p => p.title != "" && decide (totalVotesOn p.toSlot > 0))
  have hsplit := List.take_append_drop 3 (sortDesc (fun p : Pick => totalVotesOn p.toSlot)
    ((picksOf users).filter fun p => p.title != "" && decide (totalVotesOn p.toSlot > 0)))
  refine ⟨?_, ?_, ?_, ?_⟩
  · simp [topPicks, List.length_take]
  · intro p hp
    have hmem := hperm.mem_iff.1 (List.mem_of_mem_take hp)
    have hcond := (List.mem_filter.1 hmem).2
    simpa using hcond
  · exact hsorted.sublist (List.take_sublist 3 _)
  · refine ⟨(sortDesc (fun p : Pick => totalVotesOn p.toSlot)
      ((picksOf users).filter fun p =>
        p.title != "" && decide (totalVotesOn p.toSlot > 0))).drop 3, ?_, ?_, ?_, ?_, ?_, ?_⟩
    · unfold topPicks
      rw [hsplit]
      exact hperm
    · unfold topPicks
      rw [hsplit]
      exact hsorted
    · intro k
      unfold topPicks
      rw [hsplit]
      exact sortDesc_filter_key _ k _
    · intro q hq p hp
      unfold topPicks at hp
      rw [← hsplit, List.pairwise_append] at hsorted
      exact hsorted.2.2 p hp q hq
    · intro hlen
      apply List.drop_eq_nil_of_le
      rw [hperm.length_eq]
      exact hlen
    · intro hrest
      unfold topPicks
      rw [List.length_take]
      by_contra hne
      apply hrest
      apply List.drop_eq_nil_of_le
      omega

/-- C19. On the seeded board, after `saveEdit` on member 0, slot 0 with title
"Arrival", empty description, genre "Sci-Fi", rating 5, followed by `handleVote`
with owner 0, slot 0, kind `loveIt`, acting member 1: `totalVotesOn` of member
0's slot 0 is 1, and the entry of `topPicks` at rank 0 is that slot (userId 0,
slotIdx 0, title "Arrival"). -/
theorem C19_end_to_end :
    (findSlot
        (handleVote (saveEdit buildFreshState ⟨0, 0⟩ ⟨"Arrival", "", "Sci-Fi", 5⟩) 1 0 0 .loveIt)
        0 0).map totalVotesOn = some 1 ∧
    (topPicks
        (handleVote (saveEdit buildFreshState ⟨0, 0⟩ ⟨"Arrival", "", "Sci-Fi", 5⟩) 1 0 0
          .loveIt))[0]? =
      some { id := 0, title := "Arrival", description := "", genre := "Sci-Fi", rating := 5,
             votes := some { wantToWatch := some [], loveIt := some [1], seenIt := some [] },
             userName := "Alex", userColor := "#E63946", userId := 0, slotIdx := 0 } := by
  decide

/-! ## C20: identity fields -/

theorem jsMapIdx_ite_map_id (g : Nat → Slot → Slot) (j : Nat) (xs : List Slot)
    (hg : ∀ s, xs[j]? = some s → (g j s).id = s.id) :
    (jsMapIdx (fun i s => if i ≠ j then s else g i s) xs).map (fun s => s.id) =
      xs.map (fun s => s.id) := by
  apply List.ext_getElem?
  intro i
  rw [List.getElem?_map, List.getElem?_map, jsMapIdx_getElem?]
  cases hx : xs[i]? with
  | none => rfl
  | some x =>
    by_cases hij : i = j
    · subst hij
      simp [hg x hx]
    · simp [hij]

/-- The shape shared by `saveEdit`, `clearSlot` and `handleVote` keeps the slot
ids when the replacement of each targeted slot has the id of the slot. -/
theorem slotIds_target (g : Nat → Slot → Slot) (users : List Member) (userId j : Nat)
    (hg : ∀ u ∈ users, u.id = userId → ∀ s, u.slots[j]? = some s → (g j s).id = s.id) :
    (users.map (fun u => if u.id ≠ userId then u else
        { u with slots := jsMapIdx (fun i s => if i ≠ j then s else g i s) u.slots })).map
        (fun u => u.slots.map fun s => s.id) =
      users.map (fun u => u.slots.map fun s => s.id) := by
  rw [List.map_map]
  apply List.map_congr_left
  intro u hu
  by_cases hid : u.id = userId
  · simp only [Function.comp, ne_eq, hid, not_true_eq_false, if_false]
    exact jsMapIdx_ite_map_id g j u.slots (hg u hu hid)
  · simp [hid]

theorem applyMutation_member_ids (users : List Member) (op : Mutation) :
    (applyMutation users op).map (fun u => (u.id, u.color)) =
      users.map (fun u => (u.id, u.color)) := by
  cases op with
  | edit editTarget form =>
    simp only [applyMutation, saveEdit]
    split
    · rfl
    · rw [List.map_map]
      apply List.map_congr_left
      intro u _
      simp only [Function.comp]
      split <;> rfl
  | clear userId slotId =>
    simp only [applyMutation, clearSlot]
    rw [List.map_map]
    apply List.map_congr_left
    intro u _
    simp only [Function.comp]
    split <;> rfl
  | vote activeUserId ownerUserId slotIdx reactionKey =>
    simp only [applyMutation, handleVote]
    split
    · rfl
    · rw [List.map_map]
      apply List.map_congr_left
      intro u _
      simp only [Function.comp]
      split <;> rfl
  | rename renamingUser renameVal =>
    simp only [applyMutation, saveRename]
    split
    · rfl
    · rw [List.map_map]
      apply List.map_congr_left
      intro u _
      simp only [Function.comp]
      split <;> rfl

theorem saveEdit_slotIds (users : List Member) (editTarget : EditTarget) (form : Form) :
    (saveEdit users editTarget form).map (fun u => u.slots.map fun s => s.id) =
      users.map (fun u => u.slots.map fun s => s.id) := by
  unfold saveEdit
  split
  · rfl
  · exact slotIds_target
      (fun _ s => { s with title := jsTrim form.title, description := jsTrim form.description,
                           genre := form.genre, rating := form.rating }) users _ _
      (fun _ _ _ _ _ => rfl)

theorem handleVote_slotIds (users : List Member) (activeUserId ownerUserId slotIdx : Nat)
    (reactionKey : ReactionKey) :
    (handleVote users activeUserId ownerUserId slotIdx reactionKey).map
        (fun u => u.slots.map fun s => s.id) =
      users.map (fun u => u.slots.map fun s => s.id) := by
  unfold handleVote
  split
  · rfl
  · exact slotIds_target (fun _ s => toggleSlot s activeUserId reactionKey) users _ _
      (fun _ _ _ _ _ => rfl)

theorem saveRename_slotIds (users : List Member) (renamingUser : Nat) (renameVal : String) :
    (saveRename users renamingUser renameVal).map (fun u => u.slots.map fun s => s.id) =
      users.map (fun u => u.slots.map fun s => s.id) := by
  unfold saveRename
  split
  · rfl
  · rw [List.map_map]
    apply List.map_congr_left
    intro u _
    simp only [Function.comp]
    split <;> rfl

theorem clearSlot_slotIds (users : List Member) (userId slotId : Nat)
    (h : ∀ u ∈ users, u.id = userId → ∀ s ∈ u.slots[slotId]?, s.id = slotId) :
    (clearSlot users userId slotId).map (fun u => u.slots.map fun s => s.id) =
      users.map (fun u => u.slots.map fun s => s.id) := by
  unfold clearSlot
  exact slotIds_target
    (fun i _ => { id := i, title := "", description := "", genre := "", rating := 0,
                  votes := some emptyVotes }) users _ _
    (fun u hu hid s hs => (h u hu hid s hs).symm)

theorem slotIdsAreIndices_iff (users : List Member) :
    SlotIdsAreIndices users ↔
      ∀ l ∈ users.map (fun u => u.slots.map fun s => s.id), l = List.range l.length := by
  unfold SlotIdsAreIndices
  constructor
  · intro h l hl
    obtain ⟨u, hu, rfl⟩ := List.mem_map.1 hl
    simpa using h u hu
  · intro h u hu
    simpa using h _ (List.mem_map_of_mem (fun u => u.slots.map fun s => s.id) hu)

theorem slotIdsAreIndices_target (users : List Member) (h : SlotIdsAreIndices users)
    (userId slotId : Nat) :
    ∀ u ∈ users, u.id = userId → ∀ s ∈ u.slots[slotId]?, s.id = slotId := by
  intro u hu _ s hs
  have hs1 : u.slots[slotId]? = some s := hs
  have hlt : slotId < u.slots.length := by
    by_contra hge
    rw [List.getElem?_eq_none (by omega)] at hs1
    cases hs1
  have h1 : (u.slots.map fun s => s.id)[slotId]? = some s.id := by
    rw [List.getElem?_map, hs1]
    rfl
  rw [h u hu, List.getElem?_range hlt] at h1
  exact (Option.some.inj h1).symm

theorem applyMutation_slotIds (users : List Member) (h : SlotIdsAreIndices users)
    (op : Mutation) :
    (applyMutation users op).map (fun u => u.slots.map fun s => s.id) =
      users.map (fun u => u.slots.map fun s => s.id) := by
  cases op with
  | edit editTarget form => exact saveEdit_slotIds users editTarget form
  | clear userId slotId =>
    exact clearSlot_slotIds users userId slotId (slotIdsAreIndices_target users h userId slotId)
  | vote activeUserId ownerUserId slotIdx reactionKey =>
    exact handleVote_slotIds users activeUserId ownerUserId slotIdx reactionKey
  | rename renamingUser renameVal => exact saveRename_slotIds users renamingUser renameVal

theorem reachable_slotIdsAreIndices (users : List Member) (hreach : Reachable users) :
    SlotIdsAreIndices users := by
  induction hreach with
  | fresh =>
    rw [slotIdsAreIndices_iff]
    decide
  | @step b op _ ih =>
    rw [slotIdsAreIndices_iff, applyMutation_slotIds b ih op, ← slotIdsAreIndices_iff]
    exact ih

/-- C20, as stated, fails: on a board whose slot at index 0 carries the id 7,
`clearSlot` leaves at index 0 a slot with id 0. -/
theorem C20_slot_id_counterexample :
    (slotAt
        [{ id := 0, name := "Alex", color := "#E63946",
           slots := [{ id := 7, title := "Heat", description := "", genre := "Action",
                       rating := 4, votes := some emptyVotes }] }]
        0 0).map (fun s => s.id) = some 7 ∧
    (slotAt
        (applyMutation
          [{ id := 0, name := "Alex", color := "#E63946",
             slots := [{ id := 7, title := "Heat", description := "", genre := "Action",
                         rating := 4, votes := some emptyVotes }] }]
          (.clear 0 0))
        0 0).map (fun s => s.id) = some 0 := by
  decide

/-- C20, amended. On every board and for every mutation, the members of the
resulting board have, position by position, the ids and colors they had before.
The slots have, position by position, the ids they had before under `saveEdit`,
`handleVote` and `saveRename` on every board, under `clearSlot` when every slot
it targets carries its index as id, and under every mutation on every board
reachable from `buildFreshState` (where every slot carries its index as id). -/
theorem C20_identity_fields :
    (∀ (users : List Member) (op : Mutation),
      (applyMutation users op).map (fun u => (u.id, u.color)) =
        users.map (fun u => (u.id, u.color))) ∧
    (∀ (users : List Member) (editTarget : EditTarget) (form : Form),
      (saveEdit users editTarget form).map (fun u => u.slots.map fun s => s.id) =
        users.map (fun u => u.slots.map fun s => s.id)) ∧
    (∀ (users : List Member) (activeUserId ownerUserId slotIdx : Nat) (reactionKey : ReactionKey),
      (handleVote users activeUserId ownerUserId slotIdx reactionKey).map
          (fun u => u.slots.map fun s => s.id) =
        users.map (fun u => u.slots.map fun s => s.id)) ∧
    (∀ (users : List Member) (renamingUser : Nat) (renameVal : String),
      (saveRename users renamingUser renameVal).map (fun u => u.slots.map fun s => s.id) =
        users.map (fun u => u.slots.map fun s => s.id)) ∧
    (∀ (users : List Member) (userId slotId : Nat),
      (∀ u ∈ users, u.id = userId → ∀ s ∈ u.slots[slotId]?, s.id = slotId) →
      (clearSlot users userId slotId).map (fun u => u.slots.map fun s => s.id) =
        users.map (fun u => u.slots.map fun s => s.id)) ∧
    (∀ users : List Member, Reachable users → ∀ op : Mutation,
      (applyMutation users op).map (fun u => u.slots.map fun s => s.id) =
        users.map (fun u => u.slots.map fun s => s.id)) :=
  ⟨applyMutation_member_ids, saveEdit_slotIds, handleVote_slotIds, saveRename_slotIds,
    clearSlot_slotIds,
    fun users hreach op =>
      applyMutation_slotIds users (reachable_slotIdsAreIndices users hreach) op⟩

/-- A use of C20 (amended): clearing a filled slot of a reachable board keeps
the slot ids. -/
theorem C20_identity_fields_witness :
    (applyMutation (applyMutation buildFreshState (.edit ⟨0, 0⟩ ⟨"Arrival", "", "Sci-Fi", 5⟩))
        (.clear 0 0)).map (fun u => u.slots.map fun s => s.id) =
      (applyMutation buildFreshState (.edit ⟨0, 0⟩ ⟨"Arrival", "", "Sci-Fi", 5⟩)).map
        (fun u => u.slots.map fun s => s.id) :=
  C20_identity_fields.2.2.2.2.2 _ (.step _ .fresh) (.clear 0 0)

/-! ## C21: the leaderboard and the "Most Reacted" ordering -/

theorem insertDesc_of_forall_le {α : Type} (key : α → Nat) (a : α) (l : List α)
    (h : ∀ x ∈ l, key x ≤ key a) : insertDesc key a l = a :: l := by
  cases l with
  | nil => rfl
  | cons b l =>
    unfold insertDesc
    rw [if_pos (h b (List.mem_cons_self b l))]

/-- Filtering after an insertion into a sorted list is inserting into the
filtered list, or dropping the inserted element. -/
theorem insertDesc_filter {α : Type} (key : α → Nat) (p : α → Bool) (a : α) (l : List α)
    (hl : l.Pairwise fun x y => key y ≤ key x) :
    (insertDesc key a l).filter p =
      if p a then insertDesc key a (l.filter p) else l.filter p := by
  induction l with
  | nil =>
    by_cases hpa : p a = true <;> simp [insertDesc, hpa]
  | cons b l ih =>
    rw [List.pairwise_cons] at hl
    by_cases hba : key b ≤ key a
    · have hins : insertDesc key a (b :: l) = a :: b :: l := by
        unfold insertDesc
        rw [if_pos hba]
      have hall : ∀ x ∈ (b :: l).filter p, key x ≤ key a := by
        intro x hx
        rcases List.mem_cons.1 (List.mem_filter.1 hx).1 with rfl | hxl
        · exact hba
        · exact le_trans (hl.1 x hxl) hba
      rw [hins, insertDesc_of_forall_le key a _ hall]
      by_cases hpa : p a = true
      · rw [List.filter_cons_of_pos hpa, if_pos hpa]
      · rw [List.filter_cons_of_neg hpa, if_neg hpa]
    · have hins : insertDesc key a (b :: l) = b :: insertDesc key a l := by
        conv_lhs => unfold insertDesc
        rw [if_neg hba]
      rw [hins]
      by_cases hpb : p b = true
      · rw [List.filter_cons_of_pos hpb, List.filter_cons_of_pos hpb, ih hl.2]
        by_cases hpa : p a = true
        · rw [if_pos hpa, if_pos hpa]
          conv_rhs => unfold insertDesc
          rw [if_neg hba]
        · rw [if_neg hpa, if_neg hpa]
      · rw [List.filter_cons_of_neg hpb, List.filter_cons_of_neg hpb, ih hl.2]

/-- Filtering commutes with the stable descending sort. -/
theorem sortDesc_filter {α : Type} (key : α → Nat) (p : α → Bool) (l : List α) :
    sortDesc key (l.filter p) = (sortDesc key l).filter p := by
  induction l with
  | nil => rfl
  | cons a l ih =>
    show _ = (insertDesc key a (sortDesc key l)).filter p
    rw [insertDesc_filter key p a _ (sortDesc_sorted key l)]
    by_cases hpa : p a = true
    · rw [List.filter_cons_of_pos hpa, if_pos hpa]
      show insertDesc key a (sortDesc key (l.filter p)) = _
      rw [ih]
    · rw [List.filter_cons_of_neg hpa, if_neg hpa, ih]

theorem allPicks_recent_unfiltered (users : List Member) :
    allPicks users "" "" "recent" = (picksOf users).filter fun p => p.title != "" := by
  have h1 : ¬ ("recent" = "votes") := by decide
  have h2 : ¬ ("recent" = "rating") := by decide
  simp [allPicks, h1, h2]

/-- C21. For every board, `topPicks` is the first 3 entries of the sequence
obtained from `allPicks` with no genre filter, no member filter and sort mode
"votes" by keeping the entries whose `totalVotesOn` is greater than 0; keeping
those entries of the "recent" result first and sorting afterwards gives the same
sequence. -/
theorem C21_topPicks_eq_allPicks (users : List Member) :
    topPicks users =
        ((allPicks users "" "" "votes").filter
          (fun p => decide (totalVotesOn p.toSlot > 0))).take 3 ∧
    sortDesc (fun p => totalVotesOn p.toSlot)
        ((allPicks users "" "" "recent").filter
          (fun p => decide (totalVotesOn p.toSlot > 0))) =
      (allPicks users "" "" "votes").filter (fun p => decide (totalVotesOn p.toSlot > 0)) := by
  have hcomm : sortDesc (fun p : Pick => totalVotesOn p.toSlot)
      ((allPicks users "" "" "recent").filter
        (fun p => decide (totalVotesOn p.toSlot > 0))) =
      (allPicks users "" "" "votes").filter (fun p => decide (totalVotesOn p.toSlot > 0)) := by
    rw [allPicks_votes, sortDesc_filter]
  refine ⟨?_, hcomm⟩
  rw [← hcomm, allPicks_recent_unfiltered, List.filter_filter]
  unfold topPicks
  congr 2
  apply List.filter_congr
  intro p _
  exact Bool.and_comm _ _

end Reelboard
